import Mathlib

/-!
Verification development for the travel-discovery chat application's
location-extraction pipeline (`src/services/locationParser.ts`,
`src/components/ChatMessage.tsx`, `src/components/map/MapUpdater.tsx`).

The TypeScript source is shallowly embedded: JavaScript runtime values are
the inductive `JsVal` (with JSON numbers as exact rationals and `NaN` as a
separate constructor), fallible JavaScript expressions return `Except`,
`Date.now()` and `Math.random()` are explicit parameters, and the external
collaborators that are not part of the verified sources
(`generateImageUrl`, `getCoordinates`, `getLocationDescription`) are
function parameters.
-/

namespace TrippyAI

/-- A JavaScript runtime value, as produced by `JSON.parse` plus the
`undefined` and `NaN` values that the parser code manufactures. Numbers are
exact rationals (all numeric literals in play are decimal). -/
inductive JsVal where
  | null
  | undefVal
  | bool (b : Bool)
  | num (q : ℚ)
  | nan
  | str (s : String)
  | arr (elems : List JsVal)
  | obj (fields : List (String × JsVal))

/-- JavaScript truthiness: `null`, `undefined`, `false`, `0`, `NaN` and the
empty string are falsy; everything else (including `[]` and `{}`) is truthy. -/
def JsVal.truthy : JsVal → Bool
  | .null => false
  | .undefVal => false
  | .bool b => b
  | .num q => q != 0
  | .nan => false
  | .str s => s ≠ ""
  | .arr _ => true
  | .obj _ => true

/-- The JavaScript `a || b` short-circuit: `a` when truthy, else `b`. -/
def jsOr (a b : JsVal) : JsVal := if a.truthy then a else b

/-- Property read `v.key`, as the parser uses it: throws `TypeError` on
`null`/`undefined`, looks the key up on objects (missing key gives
`undefined`), and gives `undefined` on every other primitive or array. -/
def JsVal.getProp : JsVal → String → Except String JsVal
  | .null, _ => .error ("TypeError")
  | .undefVal, _ => .error ("TypeError")
  | .obj fs, k =>
      match fs.lookup k with
      | some v => .ok v
      | none => .ok .undefVal
  | _, _ => .ok .undefVal

/-- Exact decimal rendering of a natural number, the model of a JavaScript
template literal interpolating a nonnegative integer such as
a `Date.now()` timestamp or a batch index. -/
def decRepr (n : Nat) : List Char :=
  if h : n < 10 then [Char.ofNat (48 + n)]
  else decRepr (n / 10) ++ [Char.ofNat (48 + n % 10)]
  decreasing_by exact Nat.div_lt_self (by omega) (by omega)

/-- Numeric value of a digit list, used to invert `decRepr`. -/
def decVal (ds : List Char) : Nat :=
  ds.foldl (fun a c => a * 10 + (c.toNat - 48)) 0


/-- JavaScript whitespace for the purposes of `Number(string)` trimming and
the regex class `\s` (space, tab, newline, carriage return, form feed). -/
def isJsWs (c : Char) : Bool :=
  c == ' ' || c == '\x0c' || c == '\t' || c == '\r' || c == '\n'

def isDigitCh (c : Char) : Bool := '0' ≤ c && c ≤ '9'

def digitsVal (ds : List Char) : Nat :=
  ds.foldl (fun a c => a * 10 + (c.toNat - 48)) 0

def takeDigitRun : List Char → List Char × List Char
  | c :: cs =>
      if isDigitCh c then
        let (ds, r) := takeDigitRun cs
        (c :: ds, r)
      else ([], c :: cs)
  | [] => ([], [])

/-- Decimal-number parsing for the JavaScript `Number(string)` coercion
(model: sign, digits, optional fraction, optional exponent; the whole
trimmed string must be consumed; the empty string is `0`; anything else
is `NaN`, returned as `none`).  Hexadecimal and `Infinity` inputs, which
never occur in this pipeline, are conservatively `none`. -/
def strToNum (s : String) : Option ℚ :=
  let cs := (s.toList.dropWhile isJsWs).reverse.dropWhile isJsWs |>.reverse
  match cs with
  | [] => some 0
  | _ =>
    let (sgn, cs1) : ℚ × List Char :=
      match cs with
      | '-' :: r => (-1, r)
      | '+' :: r => (1, r)
      | _ => (1, cs)
    let (intDs, cs2) := takeDigitRun cs1
    let (fracDs, cs3) :=
      match cs2 with
      | '.' :: r => takeDigitRun r
      | _ => ([], cs2)
    if intDs.isEmpty && fracDs.isEmpty then none
    else
      let mant : ℚ := (digitsVal (intDs ++ fracDs) : ℚ) / ((10 : ℚ) ^ fracDs.length)
      match cs3 with
      | [] => some (sgn * mant)
      | 'e' :: r | 'E' :: r =>
          let (esgn, r1) : Bool × List Char :=
            match r with
            | '-' :: rr => (true, rr)
            | '+' :: rr => (false, rr)
            | _ => (false, r)
          let (eds, r2) := takeDigitRun r1
          if eds.isEmpty || !r2.isEmpty then none
          else
            let e : ℚ := (10 : ℚ) ^ digitsVal eds
            some (sgn * mant * (if esgn then e⁻¹ else e))
      | _ => none

/-- The JavaScript `Number(v)` coercion, producing `.num` or `.nan`.
Arrays coerce through their string form: `[]` and `[null]`/`[undefined]`
give `0`, a singleton coerces its element, longer arrays (whose join
contains a comma) and objects give `NaN`. -/
def toNumber : JsVal → JsVal
  | .null => .num 0
  | .undefVal => .nan
  | .bool b => .num (if b then 1 else 0)
  | .num q => .num q
  | .nan => .nan
  | .str s =>
      match strToNum s with
      | some q => .num q
      | none => .nan
  | .arr [] => .num 0
  | .arr [.null] => .num 0
  | .arr [.undefVal] => .num 0
  | .arr [v] => toNumber v
  | .arr _ => .nan
  | .obj _ => .nan

/-- Indexing `v[i]`, as `loc.coordinates[0]` uses it: throws `TypeError` on
`null`/`undefined`, picks a character from strings, an element from arrays,
and coerces the index to a string key on objects; out-of-range and
primitive indexing give `undefined`. -/
def JsVal.atIndex : JsVal → Nat → Except String JsVal
  | .null, _ => .error ("TypeError")
  | .undefVal, _ => .error ("TypeError")
  | .str s, i =>
      match (s.toList).get? i with
      | some c => .ok (.str (String.mk [c]))
      | none => .ok .undefVal
  | .arr xs, i =>
      match xs.get? i with
      | some v => .ok v
      | none => .ok .undefVal
  | .obj fs, i =>
      match fs.lookup (String.mk (decRepr i)) with
      | some v => .ok v
      | none => .ok .undefVal
  | _, _ => .ok .undefVal

/-- The JavaScript `String(v)` coercion used by template literals. Rendering
of non-integer numbers and of arrays/objects is a placeholder (such values
never reach a template in this pipeline, where the interpolated values are
names and nonnegative integers). -/
def jsStringOf : JsVal → String
  | .null => ("null")
  | .undefVal => ("undefined")
  | .bool b => if b then ("true") else ("false")
  | .num q =>
      if q.den = 1 then
        if q.num < 0 then String.mk ('-' :: decRepr q.num.natAbs)
        else String.mk (decRepr q.num.natAbs)
      else ("[number]")
  | .nan => ("NaN")
  | .str s => s
  | .arr _ => ("[array]")
  | .obj _ => ("[object]")

/-- Calling `.trim()` on a value: succeeds only on strings (the model of the
`TypeError` a non-string receiver raises). -/
def jsTrimCall : JsVal → Except String String
  | .str s => .ok s.trim
  | _ => .error ("TypeError")

/-- The `Math.floor` builtin on the rational model of a JavaScript number. -/
def jsFloor (q : ℚ) : ℚ := (⌊q⌋ : ℚ)

/-- Projection to a rational when the value is a number (used to state
concrete evaluations without deciding equality of full `JsVal` trees). -/
def JsVal.asNum : JsVal → Option ℚ
  | .num q => some q
  | _ => none

/-- Projection to the carried string, when the value is a string. -/
def JsVal.asStr : JsVal → Option String
  | .str s => some s
  | _ => none

/-- Function `isValidCoordinates` from `src/services/locationParser.ts` (lines
14-23): a 2-element array whose members are numbers (a `NaN` member fails
the range comparisons) with latitude in [-90, 90] and longitude in
[-180, 180]. -/
def isValidCoordinates : JsVal → Bool
  | .arr [.num lat, .num lng] =>
      decide (-90 ≤ lat) && decide (lat ≤ 90) &&
      decide (-180 ≤ lng) && decide (lng ≤ 180)
  | _ => false

/-! ### `JSON.parse`

A model of the JavaScript built-in over the JSON grammar (RFC 8259):
whitespace, `null`/`true`/`false`, numbers without leading `+` or bare
fraction, strings with the standard escapes including `\uXXXX`, arrays and
objects.  A parse error (the built-in throwing `SyntaxError`) is `none`.
Recursion is structural on a fuel counter that the top entry point seeds
with the input length. -/

def isJsonWs (c : Char) : Bool := c == ' ' || c == '\n' || c == '\t' || c == '\r'

def skipJsonWs : List Char → List Char
  | c :: cs => if isJsonWs c then skipJsonWs cs else c :: cs
  | [] => []

def jsonHexDigit (c : Char) : Option Nat :=
  if '0' ≤ c && c ≤ '9' then some (c.toNat - 48)
  else if 'a' ≤ c && c ≤ 'f' then some (c.toNat - 87)
  else if 'A' ≤ c && c ≤ 'F' then some (c.toNat - 55)
  else none

def jsonEscChar (c : Char) : Option Char :=
  if c == '"' || c == '\\' || c == '/' then some c
  else if c == 'n' then some '\n'
  else if c == 't' then some '\t'
  else if c == 'r' then some '\r'
  else if c == 'b' then some (Char.ofNat 8)
  else if c == 'f' then some (Char.ofNat 12)
  else none

/-- Body of a JSON string after the opening quote; returns the decoded
characters and the input after the closing quote. -/
def jsonStrBody (acc : List Char) : List Char → Option (String × List Char)
  | '"' :: rest => some (String.mk acc.reverse, rest)
  | '\\' :: 'u' :: a :: b :: c :: d :: rest => do
      let va ← jsonHexDigit a
      let vb ← jsonHexDigit b
      let vc ← jsonHexDigit c
      let vd ← jsonHexDigit d
      jsonStrBody (Char.ofNat (((va * 16 + vb) * 16 + vc) * 16 + vd) :: acc) rest
  | '\\' :: e :: rest => do
      let ch ← jsonEscChar e
      jsonStrBody (ch :: acc) rest
  | c :: rest => jsonStrBody (c :: acc) rest
  | [] => none

/-- A JSON number: optional minus, integer digits, optional fraction,
optional exponent, as an exact rational. -/
def jsonNumber (cs : List Char) : Option (ℚ × List Char) :=
  let neg : Bool := cs.head? == some '-'
  let cs1 : List Char := if neg then cs.tail else cs
  let (intDs, cs2) := takeDigitRun cs1
  if intDs.isEmpty then none
  else
    let (fracDs, cs3) :=
      match cs2 with
      | '.' :: r => takeDigitRun r
      | _ => ([], cs2)
    if cs2 ≠ cs3 && fracDs.isEmpty then none
    else
      let parseExp : Option (ℚ × List Char) :=
        match cs3 with
        | 'e' :: r | 'E' :: r =>
            let (esgn, r1) : Bool × List Char :=
              match r with
              | '-' :: rr => (true, rr)
              | '+' :: rr => (false, rr)
              | _ => (false, r)
            let (eds, r2) := takeDigitRun r1
            if eds.isEmpty then none
            else
              let e : ℚ := (10 : ℚ) ^ digitsVal eds
              some ((if esgn then e⁻¹ else e), r2)
        | _ => some (1, cs3)
      match parseExp with
      | none => none
      | some (e, rest) =>
          let mant : ℚ := (digitsVal (intDs ++ fracDs) : ℚ) / ((10 : ℚ) ^ fracDs.length)
          some ((if neg then -mant else mant) * e, rest)

mutual

def jsonValue (fuel : Nat) (cs : List Char) : Option (JsVal × List Char) :=
  match fuel with
  | 0 => none
  | fuel + 1 =>
    match skipJsonWs cs with
    | 'n' :: 'u' :: 'l' :: 'l' :: r => some (.null, r)
    | 't' :: 'r' :: 'u' :: 'e' :: r => some (.bool true, r)
    | 'f' :: 'a' :: 'l' :: 's' :: 'e' :: r => some (.bool false, r)
    | '"' :: r => do
        let (s, r1) ← jsonStrBody [] r
        some (.str s, r1)
    | '[' :: r =>
        (match skipJsonWs r with
         | ']' :: r1 => some (.arr [], r1)
         | other => do
             let (es, r1) ← jsonElems fuel other
             some (.arr es, r1))
    | '{' :: r =>
        (match skipJsonWs r with
         | '}' :: r1 => some (.obj [], r1)
         | other => do
             let (ms, r1) ← jsonMembers fuel other
             some (.obj ms, r1))
    | other => do
        let (q, r1) ← jsonNumber other
        some (.num q, r1)

def jsonElems (fuel : Nat) (cs : List Char) : Option (List JsVal × List Char) :=
  match fuel with
  | 0 => none
  | fuel + 1 => do
    let (v, r) ← jsonValue fuel cs
    match skipJsonWs r with
    | ',' :: r1 => do
        let (vs, r2) ← jsonElems fuel r1
        some (v :: vs, r2)
    | ']' :: r1 => some ([v], r1)
    | _ => none

def jsonMembers (fuel : Nat) (cs : List Char) : Option (List (String × JsVal) × List Char) :=
  match fuel with
  | 0 => none
  | fuel + 1 =>
    match skipJsonWs cs with
    | '"' :: r => do
        let (k, r1) ← jsonStrBody [] r
        match skipJsonWs r1 with
        | ':' :: r2 => do
            let (v, r3) ← jsonValue fuel r2
            match skipJsonWs r3 with
            | ',' :: r4 => do
                let (ms, r5) ← jsonMembers fuel r4
                some ((k, v) :: ms, r5)
            | '}' :: r4 => some ([(k, v)], r4)
            | _ => none
        | _ => none
    | _ => none

end

/-- The `JSON.parse` model on a whole string: the parsed value, provided
only trailing whitespace remains; `none` models the thrown `SyntaxError`. -/
def jsonParse (s : String) : Option JsVal :=
  match jsonValue (s.length + 1) s.toList with
  | some (v, rest) => if (skipJsonWs rest).isEmpty then some v else none
  | none => none

/-! ### The two location-block regular expressions

`parseJsonLocations` tries, in order,
`/{\s*"locations":\s*\[[\s\S]*?\]\s*}/` and
`/{\s*"name":\s*"[^"]+",\s*"coordinates":\s*\[[^]]+\].*?}/`;
`extractLocationsFromResponse` uses the first of these.  Both are modelled
as leftmost-match scanners that return the matched substring.  The lazy
`[\s\S]*?` in the first stops at the earliest `]` that is followed by
optional whitespace and `}` — which, notably, truncates a `locations`
payload at the first nested coordinates array. -/

def wsRun (s : List Char) : Nat := (s.takeWhile isJsWs).length

/-- Length consumed by `[\s\S]*?\]\s*}` from the character after `\[`:
the earliest closing bracket followed by whitespace and a brace wins. -/
def lazyCloseLen : List Char → Option Nat
  | [] => none
  | c :: rest =>
      if c = ']' then
        let w := wsRun rest
        match rest.drop w with
        | '}' :: _ => some (1 + w + 1)
        | _ => (lazyCloseLen rest).map (· + 1)
      else (lazyCloseLen rest).map (· + 1)

/-- Match length of the `"locations"` pattern anchored at the head of `s`. -/
def pat1At (s : List Char) : Option Nat :=
  match s with
  | '{' :: r =>
      let w1 := wsRun r
      let r1 := r.drop w1
      if ("\"locations\":").toList.isPrefixOf r1 then
        let r2 := r1.drop 12
        let w2 := wsRun r2
        match r2.drop w2 with
        | '[' :: r3 => (lazyCloseLen r3).map (fun l => 1 + w1 + 12 + w2 + 1 + l)
        | _ => none
      else none
  | _ => none

/-- Leftmost match of the `"locations"` pattern: the matched substring. -/
def findPat1 : List Char → Option (List Char)
  | [] => none
  | c :: rest =>
      match pat1At (c :: rest) with
      | some l => some ((c :: rest).take l)
      | none => findPat1 rest

/-- Length consumed by `.*?}` (lazy dot, which does not cross a newline). -/
def lazyBraceLen : List Char → Option Nat
  | [] => none
  | '}' :: _ => some 1
  | '\n' :: _ => none
  | _ :: rest => (lazyBraceLen rest).map (· + 1)

/-- Match length of the bare-location pattern anchored at the head of `s`. -/
def pat2At (s : List Char) : Option Nat :=
  match s with
  | '{' :: r =>
      let w1 := wsRun r
      let r1 := r.drop w1
      if ("\"name\":").toList.isPrefixOf r1 then
        let r2 := r1.drop 7
        let w2 := wsRun r2
        match r2.drop w2 with
        | '"' :: r3 =>
            let nm := r3.takeWhile (fun c => c ≠ '"')
            if nm.isEmpty then none
            else
              match r3.drop nm.length with
              | '"' :: ',' :: r4 =>
                  let w3 := wsRun r4
                  let r5 := r4.drop w3
                  if ("\"coordinates\":").toList.isPrefixOf r5 then
                    let r6 := r5.drop 14
                    let w4 := wsRun r6
                    match r6.drop w4 with
                    | '[' :: r7 =>
                        let inner := r7.takeWhile (fun c => c ≠ ']')
                        if inner.isEmpty then none
                        else
                          match r7.drop inner.length with
                          | ']' :: r8 =>
                              (lazyBraceLen r8).map (fun l =>
                                1 + w1 + 7 + w2 + 1 + nm.length + 2 + w3 + 14 +
                                  w4 + 1 + inner.length + 1 + l)
                          | _ => none
                    | _ => none
                  else none
              | _ => none
        | _ => none
      else none
  | _ => none

/-- Leftmost match of the bare-location pattern: the matched substring. -/
def findPat2 : List Char → Option (List Char)
  | [] => none
  | c :: rest =>
      match pat2At (c :: rest) with
      | some l => some ((c :: rest).take l)
      | none => findPat2 rest

/-! ### The three JSON-processing normalizers

`Date.now()` is the `now` parameter, `Math.random()` (fresh per element in
the permissive path) is the `rand` parameter indexed by batch position, and
the external `generateImageUrl` collaborator (in `imageService`, outside
the verified sources) is the `genImg` parameter. -/

/-- The canonical output entity.  `parseJsonLocations` names the pair field
`coordinates` and the image field `image`; the other producers name them
`position` and `imageUrl`; one Lean structure covers both shapes. -/
structure Loc where
  id : String
  name : JsVal
  position : JsVal × JsVal
  rating : JsVal
  reviews : JsVal
  description : JsVal
  imageUrl : JsVal

/-- Indexed `.map` whose callback can throw: the first error aborts the
whole traversal, as an uncaught exception aborts `Array.prototype.map`. -/
def mapWithIndexE (f : Nat → α → Except ε β) : Nat → List α → Except ε (List β)
  | _, [] => .ok []
  | i, a :: as => do
      let b ← f i a
      let bs ← mapWithIndexE f (i + 1) as
      .ok (b :: bs)

/-- The `?.trim() || ...` left operand: optional chaining passes
`null`/`undefined` through as `undefined`, trims strings, and raises
`TypeError` on any other receiver. -/
def jsOptTrim : JsVal → Except String JsVal
  | .null => .ok .undefVal
  | .undefVal => .ok .undefVal
  | .str s => .ok (.str s.trim)
  | _ => .error ("TypeError")

/-- One record of the strict batch map in `parseJsonLocations`
(locationParser.ts lines 54-69): validate the coordinates (raising the
descriptive error), then build the output with `Number(...) || 0` numeric
defaults. -/
def strictMapOne (genImg : JsVal → String) (now i : Nat) (loc : JsVal) :
    Except String Loc := do
  let coords ← loc.getProp ("coordinates")
  if isValidCoordinates coords then
    let nmv ← loc.getProp ("name")
    let nm ← jsTrimCall nmv
    let ratingv ← loc.getProp ("rating")
    let reviewsv ← loc.getProp ("reviews")
    let descv ← loc.getProp ("description")
    let desc ← jsOptTrim descv
    let imgv ← loc.getProp ("image")
    let position :=
      match coords with
      | .arr [x, y] => (x, y)
      | _ => (.undefVal, .undefVal)
    .ok {
      id := String.mk (decRepr now ++ ("-loc-").toList ++ decRepr i)
      name := .str nm
      position := position
      rating := jsOr (toNumber ratingv) (.num 0)
      reviews := jsOr (toNumber reviewsv) (.num 0)
      description := jsOr desc (.str (""))
      imageUrl := jsOr imgv (.str (genImg nmv)) }
  else
    let nmv ← loc.getProp ("name")
    .error (("Invalid coordinates for location: ") ++ jsStringOf nmv)

/-- The `parsed.locations` dispatch of `parseJsonLocations` (line 42):
an array gives the batch, anything else wraps the parsed value itself;
a throwing property access falls through to the next pattern. -/
def locsOfParsed (v : JsVal) : Option (List JsVal) :=
  match v.getProp ("locations") with
  | .ok (.arr xs) => some xs
  | .ok _ => some [v]
  | .error _ => none

/-- The pattern loop of `parseJsonLocations` (lines 28-48): try the
`"locations"` pattern, then the bare-location pattern, taking the first
whose match parses; no parse gives the empty batch. -/
def strictRaws (text : String) : List JsVal :=
  let viaPat2 : List JsVal :=
    match findPat2 text.toList with
    | some m =>
        match (jsonParse (String.mk m)).bind locsOfParsed with
        | some ls => ls
        | none => []
    | none => []
  match findPat1 text.toList with
  | some m =>
      match (jsonParse (String.mk m)).bind locsOfParsed with
      | some ls => ls
      | none => viaPat2
  | none => viaPat2

/-- Function `parseJsonLocations` (locationParser.ts lines 25-75): strict-mode
normalization of the first JSON block found in the text; an empty batch
raises, and the outer `catch` rethrows every error. -/
def parseJsonLocations (genImg : JsVal → String) (now : Nat) (text : String) :
    Except String (List Loc) :=
  let raws := strictRaws text
  if raws.isEmpty then .error ("No valid locations found in text")
  else mapWithIndexE (strictMapOne genImg now) 0 raws

/-- One record of the permissive batch map in
`extractLocationsFromResponse` (lines 195-206): no coordinate validation,
`|| 4.5` and random-review defaults. -/
def extractOne (genImg : JsVal → String) (rand : Nat → ℚ) (now i : Nat)
    (loc : JsVal) : Except String Loc := do
  let nmv ← loc.getProp ("name")
  let coords ← loc.getProp ("coordinates")
  let lat ← coords.atIndex 0
  let lng ← coords.atIndex 1
  let ratingv ← loc.getProp ("rating")
  let reviewsv ← loc.getProp ("reviews")
  let imgv ← loc.getProp ("image")
  let descv ← loc.getProp ("description")
  .ok {
    id := String.mk (("loc-").toList ++ decRepr now ++ '-' :: decRepr i)
    name := nmv
    position := (lat, lng)
    rating := jsOr ratingv (.num (4.5 : ℚ))
    reviews := jsOr reviewsv (.num (jsFloor (rand i * 40000) + 10000))
    imageUrl := jsOr imgv (.str (genImg nmv))
    description := jsOr descv (.str (("Visit ") ++ jsStringOf nmv)) }

/-- Function `extractLocationsFromResponse` (locationParser.ts lines 174-211):
permissive-mode extraction; any thrown error — a failed parse, a missing
structure, or a record whose coordinate access throws — yields `[]`. -/
def extractLocationsFromResponse (genImg : JsVal → String) (rand : Nat → ℚ)
    (now : Nat) (text : String) : List Loc :=
  match findPat1 text.toList with
  | none => []
  | some m =>
      match jsonParse (String.mk m) with
      | none => []
      | some data =>
          match data.getProp ("locations") with
          | .error _ => []
          | .ok (.arr xs) =>
              match mapWithIndexE (extractOne genImg rand now) 0 xs with
              | .ok out => out
              | .error _ => []
          | .ok _ => []

/-- One record of the `ChatMessage` JSON-processing path
(ChatMessage.tsx lines 59-70): `Number(...)` positions, `|| 4.5` rating,
`|| 1000` reviews, and an inline Unsplash fallback URL (the
`encodeURIComponent` template is the `chatImg` parameter). -/
def chatOne (chatImg : JsVal → String) (now i : Nat) (loc : JsVal) :
    Except String Loc := do
  let nmv ← loc.getProp ("name")
  let coords ← loc.getProp ("coordinates")
  let lat ← coords.atIndex 0
  let lng ← coords.atIndex 1
  let ratingv ← loc.getProp ("rating")
  let reviewsv ← loc.getProp ("reviews")
  let imgv ← loc.getProp ("image")
  let descv ← loc.getProp ("description")
  .ok {
    id := String.mk (("loc-").toList ++ decRepr now ++ '-' :: decRepr i)
    name := nmv
    position := (toNumber lat, toNumber lng)
    rating := jsOr ratingv (.num (4.5 : ℚ))
    reviews := jsOr reviewsv (.num 1000)
    imageUrl := jsOr imgv (.str (chatImg nmv))
    description := jsOr descv (.str ("")) }

/-- The `ChatMessage` location-processing effect (ChatMessage.tsx lines
55-81): parse the JSON content directly and map every record with no
filtering; any thrown error leaves the displayed batch empty. -/
def chatProcessLocations (chatImg : JsVal → String) (now : Nat)
    (jsonContent : String) : List Loc :=
  match jsonParse jsonContent with
  | none => []
  | some data =>
      match data.getProp ("locations") with
      | .error _ => []
      | .ok locsv =>
          if locsv.truthy then
            match locsv with
            | .arr xs =>
                match mapWithIndexE (chatOne chatImg now) 0 xs with
                | .ok out => out
                | .error _ => []
            | _ => []
          else []

/-! ### The text-mode extractor

`parseTextLocations` repeatedly `exec`s
`/(\d+\.\s*)([^-\n]+?)(?:\s*-\s*([^\n.]+)[.\n]|$)/g` over the prose.  The
scanner below reproduces the backtracking order of that pattern: greedy
digits and whitespace, a lazy name (shortest first), and the dash-plus-
description alternative tried before the end-of-string alternative.  The
lookup and image collaborators (`locationService`, `imageService`, outside
the verified sources) are fallible parameters, which is what gives the
surrounding `try`/`catch` something to catch. -/

/-- One regex match: the untrimmed name capture and the optional
description capture. -/
structure TextMatch where
  rawName : List Char
  descCap : Option (List Char)

/-- Try `f` at `n, n-1, …, 0`, first success wins — the backtracking
order of a greedy `\s*`. -/
def descTry (f : Nat → Option α) : Nat → Option α
  | 0 => f 0
  | n + 1 => (f (n + 1)).orElse fun _ => descTry f n

/-- Try `f` at `k, k+1, …` for `r` values, first success wins — the
growth order of a lazy `+?`. -/
def ascTry (f : Nat → Option α) : Nat → Nat → Option α
  | _, 0 => none
  | k, r + 1 => (f k).orElse fun _ => ascTry f (k + 1) r

/-- The `\s*-\s*([^\n.]+)[.\n]` continuation after the name: skip
whitespace to a dash, then the description runs to the first `.` or
newline, which must exist.  Returns the description capture and the
consumed length. -/
def contDash (rest : List Char) : Option (List Char × Nat) :=
  let v := wsRun rest
  match rest.drop v with
  | '-' :: r2 =>
      let u0 := wsRun r2
      descTry (fun u =>
        let d := (r2.drop u).takeWhile (fun c => c ≠ '.' && c ≠ '\n')
        if d.isEmpty then none
        else if u + d.length < r2.length then some (d, v + 1 + u + d.length + 1)
        else none) u0
  | _ => none

/-- Attempt the whole pattern anchored at the head of `s`: the match data
and the total consumed length. -/
def textMatchHead (s : List Char) : Option (TextMatch × Nat) :=
  let digits := s.takeWhile isDigitCh
  if digits.isEmpty then none
  else
    match s.drop digits.length with
    | '.' :: r =>
        let w0 := wsRun r
        descTry (fun w =>
          let body := r.drop w
          let navail := (body.takeWhile (fun c => c ≠ '-' && c ≠ '\n')).length
          ascTry (fun nameLen =>
            let rest := body.drop nameLen
            match contDash rest with
            | some (d, contLen) =>
                some (⟨body.take nameLen, some d⟩,
                  digits.length + 1 + w + nameLen + contLen)
            | none =>
                if rest.isEmpty then
                  some (⟨body.take nameLen, none⟩,
                    digits.length + 1 + w + nameLen)
                else none) 1 navail) w0
    | _ => none

/-- The `exec` loop with the `g` flag: scan left to right, resuming after
each match. -/
def scanText (cs : List Char) : Nat → Nat → List TextMatch
  | 0, _ => []
  | fuel + 1, pos =>
      if pos ≥ cs.length then []
      else
        match textMatchHead (cs.drop pos) with
        | some (m, len) => m :: scanText cs fuel (pos + max len 1)
        | none => scanText cs fuel (pos + 1)

def findTextMatches (text : String) : List TextMatch :=
  scanText text.toList (text.length + 1) 0

/-- Build the pushed location for one accepted text candidate
(locationParser.ts lines 156-164); `k` is `locations.length` at push time,
`randA`/`randB` the two per-push `Math.random()` draws. -/
def mkTextLoc (now k : Nat) (cleanName : String) (coords : ℚ × ℚ)
    (knownDesc img : String) (descCap : Option (List Char))
    (randA randB : ℚ) : Loc :=
  { id := String.mk (("loc-").toList ++ decRepr now ++ '-' :: decRepr k)
    name := .str cleanName
    position := (.num coords.1, .num coords.2)
    rating := .num ((4.5 : ℚ) + randA * (0.5 : ℚ))
    reviews := .num (jsFloor (randB * 40000) + 10000)
    imageUrl := .str img
    description := jsOr (match descCap with
      | some d => .str (String.mk d)
      | none => .undefVal) (.str knownDesc) }

/-- Processing of one accepted candidate (locationParser.ts lines 150-164):
trim the name, consult the three collaborators — any of which may throw —
and build the pushed location; `k` is `locations.length` at push time. -/
def textStep (now k : Nat) (gc : String → Except String (ℚ × ℚ))
    (gd : String → Except String String) (gi : String → Except String String)
    (randA randB : Nat → ℚ) (m : TextMatch) : Except String Loc := do
  let cleanName := (String.mk m.rawName).trim
  let coords ← gc cleanName
  let kd ← gd cleanName
  let img ← gi cleanName
  Except.ok (mkTextLoc now k cleanName coords kd img m.descCap
    (randA k) (randB k))

/-- The `while ((match = LOCATION_PATTERN.exec(text)) !== null)` body
(lines 146-165): a short raw name is skipped with `continue`; a collaborator
throw escapes the loop to the outer `catch`, which returns the locations
accumulated so far. -/
def textLoop (now : Nat) (gc : String → Except String (ℚ × ℚ))
    (gd : String → Except String String) (gi : String → Except String String)
    (randA randB : Nat → ℚ) : List TextMatch → List Loc → List Loc
  | [], acc => acc
  | m :: rest, acc =>
      if m.rawName.length < 2 then textLoop now gc gd gi randA randB rest acc
      else
        match textStep now acc.length gc gd gi randA randB m with
        | .error _ => acc
        | .ok l => textLoop now gc gd gi randA randB rest (acc ++ [l])

/-- Function `parseTextLocations` (locationParser.ts lines 139-171): scan the prose
for enumerated-list candidates and push one location per accepted one;
never raises. -/
def parseTextLocations (now : Nat) (gc : String → Except String (ℚ × ℚ))
    (gd : String → Except String String) (gi : String → Except String String)
    (randA randB : Nat → ℚ) (text : String) : List Loc :=
  textLoop now gc gd gi randA randB (findTextMatches text) []

/-! ### The Stream Splitter

`processStreamingMessage` lives in `services/chat/messageProcessor`, which
is not among the verified sources — only its callers are.  The definitions
below are therefore modelled from the specification (section 4.1). -/

/-- Literal-prefix test, structural in both lists (the building block of
the marker search). -/
def litAt : List Char → List Char → Bool
  | l :: ls, c :: cs => if l == c then litAt ls cs else false
  | [], _ => true
  | _ :: _, [] => false

/-- Modelled from the spec: the recognized weather-intent marker of
`processStreamingMessage` — a fixed "check the weather in " cue; the
target place name is the text after it. -/
def weatherMarker : List Char := ("check the weather in ").toList

/-- Modelled from the spec: find the weather marker; when present, return
the text before it and the text after it (the place name). -/
def splitAtMarker : List Char → Option (List Char × List Char)
  | [] => none
  | c :: rest =>
      if litAt weatherMarker (c :: rest) then
        some ([], (c :: rest).drop weatherMarker.length)
      else
        (splitAtMarker rest).map (fun p => (c :: p.1, p.2))

/-- A character after which a JSON block may begin: a line break or
sentence-ending punctuation (with the trailing space such punctuation
carries). -/
def sentenceEnd (c : Char) : Bool :=
  c == '\n' || c == '.' || c == '!' || c == '?' || c == ' '

/-- Modelled from the spec: index of the first `{` that begins a line or
follows sentence-ending punctuation. -/
def findJsonStartAux : Option Char → List Char → Option Nat
  | _, [] => none
  | prev, c :: rest =>
      if c = '{' &&
          (match prev with
           | none => true
           | some p => sentenceEnd p) then some 0
      else (findJsonStartAux (some c) rest).map (· + 1)

def findJsonStart (cs : List Char) : Option Nat := findJsonStartAux none cs

/-- Modelled from the spec: depth-counting brace scanner with
string-literal and escape tracking; returns the length of the balanced
object starting at the head, or `none` while the stream is still
incomplete. -/
def braceScan (depth : Nat) (inStr esc : Bool) : List Char → Option Nat
  | [] => none
  | c :: rest =>
      if inStr then
        if esc then (braceScan depth true false rest).map (· + 1)
        else if c = '\\' then (braceScan depth true true rest).map (· + 1)
        else if c = '"' then (braceScan depth false false rest).map (· + 1)
        else (braceScan depth true false rest).map (· + 1)
      else if c = '{' then (braceScan (depth + 1) false false rest).map (· + 1)
      else if c = '}' then
        if depth = 1 then some 1
        else (braceScan (depth - 1) false false rest).map (· + 1)
      else if c = '"' then (braceScan depth true false rest).map (· + 1)
      else (braceScan depth false false rest).map (· + 1)

/-- Collapse runs of three or more newlines to two. -/
def collapseNewlines : List Char → List Char
  | '\n' :: '\n' :: '\n' :: rest => collapseNewlines ('\n' :: '\n' :: rest)
  | c :: rest => c :: collapseNewlines rest
  | [] => []

/-- Collapse runs of spaces to a single space. -/
def collapseSpaces : List Char → List Char
  | ' ' :: ' ' :: rest => collapseSpaces (' ' :: rest)
  | c :: rest => c :: collapseSpaces rest
  | [] => []

/-- Modelled from the spec: whitespace normalization of the displayed
prose. -/
def normalizeWs (s : List Char) : String :=
  (String.mk (collapseSpaces (collapseNewlines s))).trim

/-- The transient splitter result: displayed prose, extracted JSON block
and weather target are mutually exclusive classifications. -/
structure StreamParseResult where
  textContent : String
  jsonContent : Option String
  weatherLocation : Option String

/-- Modelled from the spec: `processStreamingMessage` — weather detection
takes precedence; otherwise the first plausible `{` is scanned for a
balanced object, which may not exist yet while streaming. -/
def processStreamingMessage (content : String) : StreamParseResult :=
  let cs := content.toList
  match splitAtMarker cs with
  | some p =>
      { textContent := normalizeWs p.1
        jsonContent := none
        weatherLocation := some (String.mk p.2).trim }
  | none =>
      match findJsonStart cs with
      | none =>
          { textContent := normalizeWs cs
            jsonContent := none
            weatherLocation := none }
      | some i =>
          match braceScan 0 false false (cs.drop i) with
          | some n =>
              { textContent := normalizeWs (cs.take i)
                jsonContent := some (String.mk ((cs.drop i).take n))
                weatherLocation := none }
          | none =>
              { textContent := normalizeWs (cs.take i)
                jsonContent := none
                weatherLocation := none }

/-! ### The map updater

`MapUpdater.tsx` lines 70-158 (the no-selection effect) and its local
`isValidCoordinates` (lines 163-167). -/

/-- Optional-chained property read `v?.k`: nullish receivers give
`undefined` instead of throwing. -/
def optProp (v : JsVal) (k : String) : JsVal :=
  match v with
  | .null => .undefVal
  | .undefVal => .undefVal
  | .obj fs => (fs.lookup k).getD .undefVal
  | _ => .undefVal

/-- The `x != null` loose comparison: false exactly on `null` and
`undefined`. -/
def jsNotNullish : JsVal → Bool
  | .null => false
  | .undefVal => false
  | _ => true

/-- The global `isNaN(v)`: coerce with `Number` and test for `NaN`. -/
def jsIsNaN (v : JsVal) : Bool :=
  match toNumber v with
  | .nan => true
  | _ => false

/-- The relational `v >= q` with JavaScript numeric coercion (`NaN` makes
every comparison false). -/
def jsGe (v : JsVal) (q : ℚ) : Bool :=
  match toNumber v with
  | .num x => decide (q ≤ x)
  | _ => false

/-- The relational `v <= q` with JavaScript numeric coercion. -/
def jsLe (v : JsVal) (q : ℚ) : Bool :=
  match toNumber v with
  | .num x => decide (x ≤ q)
  | _ => false

/-- Function `isValidCoordinates` from `MapUpdater.tsx` (lines 163-167). -/
def muValidCoordinates (lat lng : JsVal) : Bool :=
  !(jsIsNaN lat) && !(jsIsNaN lng) &&
  jsGe lat (-90) && jsLe lat 90 && jsGe lng (-180) && jsLe lng 180

/-- The per-location filter of the locations-update effect
(MapUpdater.tsx lines 83-95). -/
def muValidLoc (loc : JsVal) : Bool :=
  let la := optProp (optProp loc ("position")) ("lat")
  let ln := optProp (optProp loc ("position")) ("lng")
  jsNotNullish la && jsNotNullish ln && muValidCoordinates la ln

/-- The symbolic map view: untouched start state, or the last fly-to
command with exactly the data the component passed to Leaflet. -/
inductive MapView where
  | start
  | flyTo (lat lng : ℚ) (zoom : Nat)
  | flyToBounds (pts : List (ℚ × ℚ))

/-- Numeric value of a (valid) coordinate for the fly-to command. -/
def coordQ (v : JsVal) : ℚ :=
  match toNumber v with
  | .num q => q
  | _ => 0

def muLatLng (loc : JsVal) : ℚ × ℚ :=
  (coordQ (optProp (optProp loc ("position")) ("lat")),
   coordQ (optProp (optProp loc ("position")) ("lng")))

/-- The locations-update effect of `MapUpdater` (lines 70-158): with no
selection, filter out invalid locations; none valid leaves the view
unchanged; one valid flies to it; several fly to their bounds. -/
def mapUpdaterOnLocations (locations : List JsVal) (selected : Option JsVal)
    (st : MapView) : MapView :=
  if locations.isEmpty || selected.isSome then st
  else
    let valid := locations.filter muValidLoc
    match valid with
    | [] => st
    | [l] => .flyTo (muLatLng l).1 (muLatLng l).2 13
    | _ => .flyToBounds (valid.map muLatLng)

/-- Numerator/denominator view of a numeric `JsVal`, used to state concrete
evaluations in kernel-checkable form. -/
def numView (v : JsVal) : Option (Int × Nat) :=
  (v.asNum).map (fun q => (q.num, q.den))

/-! ### Supporting lemmas -/

theorem decVal_append (xs ys : List Char) :
    decVal (xs ++ ys) = ys.foldl (fun a c => a * 10 + (c.toNat - 48)) (decVal xs) := by
  simp [decVal, List.foldl_append]

theorem toNat_ofNat_digit (d : Nat) (hd : d < 10) :
    (Char.ofNat (48 + d)).toNat = 48 + d := by
  interval_cases d <;> decide

/-- Function `decVal` recovers the number that `decRepr` rendered. -/
theorem decVal_decRepr (n : Nat) : decVal (decRepr n) = n := by
  induction n using Nat.strong_induction_on with
  | _ n ih =>
    rw [decRepr]
    by_cases h : n < 10
    · simp only [h, dif_pos]
      simp [decVal, toNat_ofNat_digit n h]
    · simp only [h, dif_neg, not_false_iff]
      rw [decVal_append, ih (n / 10) (Nat.div_lt_self (by omega) (by omega))]
      simp only [List.foldl_cons, List.foldl_nil]
      rw [toNat_ofNat_digit (n % 10) (Nat.mod_lt _ (by omega))]
      omega

theorem decRepr_injective {m n : Nat} (h : decRepr m = decRepr n) : m = n := by
  have := decVal_decRepr m
  rw [h, decVal_decRepr] at this
  omega

theorem mapWithIndexE_ok_length {f : Nat → α → Except ε β} :
    ∀ {i : Nat} {xs : List α} {ys : List β},
      mapWithIndexE f i xs = .ok ys → ys.length = xs.length := by
  intro i xs
  induction xs generalizing i with
  | nil =>
      intro ys h
      simp only [mapWithIndexE] at h
      cases h
      rfl
  | cons a as ih =>
      intro ys h
      simp only [mapWithIndexE, bind, Except.bind] at h
      cases hf : f i a with
      | error e => rw [hf] at h; cases h
      | ok b =>
          rw [hf] at h
          cases hrest : mapWithIndexE f (i + 1) as with
          | error e => rw [hrest] at h; cases h
          | ok bs =>
              rw [hrest] at h
              cases h
              simp [ih hrest]

theorem mapWithIndexE_ok_mem {f : Nat → α → Except ε β} :
    ∀ {i : Nat} {xs : List α} {ys : List β},
      mapWithIndexE f i xs = .ok ys →
        ∀ y ∈ ys, ∃ k x, x ∈ xs ∧ f k x = .ok y := by
  intro i xs
  induction xs generalizing i with
  | nil =>
      intro ys h y hy
      simp only [mapWithIndexE] at h
      cases h
      cases hy
  | cons a as ih =>
      intro ys h y hy
      simp only [mapWithIndexE, bind, Except.bind] at h
      cases hf : f i a with
      | error e => rw [hf] at h; cases h
      | ok b =>
          rw [hf] at h
          cases hrest : mapWithIndexE f (i + 1) as with
          | error e => rw [hrest] at h; cases h
          | ok bs =>
              rw [hrest] at h
              cases h
              rcases List.mem_cons.mp hy with rfl | hmem
              · exact ⟨i, a, List.mem_cons_self _ _, hf⟩
              · obtain ⟨k, x, hx, hfx⟩ := ih hrest y hmem
                exact ⟨k, x, List.mem_cons_of_mem _ hx, hfx⟩

theorem mapWithIndexE_ok_get {f : Nat → α → Except ε β} :
    ∀ {i : Nat} {xs : List α} {ys : List β},
      mapWithIndexE f i xs = .ok ys →
        ∀ k (hk : k < ys.length) (hk' : k < xs.length),
          f (i + k) (xs.get ⟨k, hk'⟩) = .ok (ys.get ⟨k, hk⟩) := by
  intro i xs
  induction xs generalizing i with
  | nil =>
      intro ys h k hk hk'
      exact absurd hk' (by simp)
  | cons a as ih =>
      intro ys h k hk hk'
      simp only [mapWithIndexE, bind, Except.bind] at h
      cases hf : f i a with
      | error e => rw [hf] at h; cases h
      | ok b =>
          rw [hf] at h
          cases hrest : mapWithIndexE f (i + 1) as with
          | error e => rw [hrest] at h; cases h
          | ok bs =>
              rw [hrest] at h
              cases h
              match k with
              | 0 => simpa using hf
              | k + 1 =>
                  have := ih hrest k (by simpa using hk) (by simpa using hk')
                  simpa [Nat.add_assoc, Nat.add_comm 1 k] using this

/-- Success of the source `isValidCoordinates` forces the validated shape:
a two-number array with in-range members. -/
theorem isValidCoordinates_spec {v : JsVal} (h : isValidCoordinates v = true) :
    ∃ a b : ℚ, v = .arr [.num a, .num b] ∧
      -90 ≤ a ∧ a ≤ 90 ∧ -180 ≤ b ∧ b ≤ 180 := by
  match v with
  | .null | .undefVal | .bool _ | .num _ | .nan | .str _ | .obj _ =>
      simp [isValidCoordinates] at h
  | .arr [] => simp [isValidCoordinates] at h
  | .arr [x] => simp [isValidCoordinates] at h
  | .arr (x :: y :: z :: r) => simp [isValidCoordinates] at h
  | .arr [x, y] =>
      cases x <;> cases y <;> simp_all [isValidCoordinates]
      case num.num a b =>
        exact ⟨a, b, ⟨rfl, rfl⟩, h.1.1.1, h.1.1.2, h.1.2, h.2⟩

/-- A strict-map success passed the coordinate validation: the output
position is a pair of in-range numbers. -/
theorem strictMapOne_ok_position {genImg : JsVal → String} {now i : Nat}
    {loc : JsVal} {l : Loc} (h : strictMapOne genImg now i loc = .ok l) :
    ∃ a b : ℚ, l.position = (.num a, .num b) ∧
      -90 ≤ a ∧ a ≤ 90 ∧ -180 ≤ b ∧ b ≤ 180 := by
  simp only [strictMapOne, bind, Except.bind] at h
  cases hc : loc.getProp ("coordinates") with
  | error e => simp only [hc] at h; cases h
  | ok coords =>
      simp only [hc] at h
      by_cases hv : isValidCoordinates coords = true
      · rw [if_pos hv] at h
        obtain ⟨a, b, rfl, h1, h2, h3, h4⟩ := isValidCoordinates_spec hv
        refine ⟨a, b, ?_, h1, h2, h3, h4⟩
        cases hn : loc.getProp ("name") with
        | error e => simp only [hn] at h; cases h
        | ok nmv =>
        simp only [hn] at h
        cases ht : jsTrimCall nmv with
        | error e => simp only [ht] at h; cases h
        | ok nm =>
        simp only [ht] at h
        cases hr : loc.getProp ("rating") with
        | error e => simp only [hr] at h; cases h
        | ok ratingv =>
        simp only [hr] at h
        cases hw : loc.getProp ("reviews") with
        | error e => simp only [hw] at h; cases h
        | ok reviewsv =>
        simp only [hw] at h
        cases hd : loc.getProp ("description") with
        | error e => simp only [hd] at h; cases h
        | ok descv =>
        simp only [hd] at h
        cases hot : jsOptTrim descv with
        | error e => simp only [hot] at h; cases h
        | ok desc =>
        simp only [hot] at h
        cases hi : loc.getProp ("image") with
        | error e => simp only [hi] at h; cases h
        | ok imgv =>
        simp only [hi] at h
        cases h
        rfl
      · rw [if_neg hv] at h
        cases hn : loc.getProp ("name") with
        | error e => simp only [hn] at h; cases h
        | ok nmv => simp only [hn] at h; cases h

/-! ### Claim C1 -/

/-- C1, counterexample: the claim says every entry point that produces
`Location` values yields only in-range coordinates for every input string,
but the `ChatMessage` JSON-processing path performs no range validation:
on a payload whose latitude is 200 it returns that location unchanged. -/
theorem claim1_counterexample :
    ((chatProcessLocations (fun _ => ("img")) 0
        ("\x7b\"locations\":[\x7b\"name\":\"Bad\",\"coordinates\":[200,0]\x7d]\x7d")).map
          (fun l => (numView l.position.1, numView l.position.2))) =
      [(some (200, 1), some (0, 1))] ∧ ¬ ((200 : ℚ) ≤ 90) := by
  constructor
  · with_unfolding_all rfl
  · norm_num

/-- C1, amended: of the three Location-producing paths only the strict one,
`parseJsonLocations`, guarantees the range invariant — whenever it returns
a batch, every returned position is a pair of numbers with latitude in
[-90, 90] and longitude in [-180, 180]; `extractLocationsFromResponse`
and the `ChatMessage` path do not validate ranges. -/
theorem claim1_strict_in_range (genImg : JsVal → String) (now : Nat)
    (text : String) (out : List Loc)
    (h : parseJsonLocations genImg now text = .ok out) :
    ∀ l ∈ out, ∃ a b : ℚ, l.position = (.num a, .num b) ∧
      -90 ≤ a ∧ a ≤ 90 ∧ -180 ≤ b ∧ b ≤ 180 := by
  intro l hl
  simp only [parseJsonLocations] at h
  split at h
  · cases h
  · obtain ⟨k, x, _, hx⟩ := mapWithIndexE_ok_mem h l hl
    exact strictMapOne_ok_position hx

/-- C1, witness: the amended theorem applied to a concrete successful
strict batch. -/
theorem claim1_strict_in_range_witness :
    ∃ out, parseJsonLocations (fun _ => ("img")) 7
        ("\x7b\"locations\":[\x7b\"name\":\"Eiffel\",\"coordinates\":[48,2]\x7d]\x7d") =
          .ok out ∧
      ∀ l ∈ out, ∃ a b : ℚ, l.position = (.num a, .num b) ∧
        -90 ≤ a ∧ a ≤ 90 ∧ -180 ≤ b ∧ b ≤ 180 := by
  refine ⟨[⟨("7-loc-0"), .str ("Eiffel"), (.num 48, .num 2), .num 0, .num 0,
      .str (""), .str ("img")⟩], ?_, ?_⟩
  · with_unfolding_all rfl
  · exact claim1_strict_in_range (fun _ => ("img")) 7
      ("\x7b\"locations\":[\x7b\"name\":\"Eiffel\",\"coordinates\":[48,2]\x7d]\x7d") _
      (by with_unfolding_all rfl)

/-! ### Claim C2 -/

/-- Processing a prefix that succeeds extends over an appended batch by
continuing at the next index. -/
theorem mapWithIndexE_append {f : Nat → α → Except ε β} :
    ∀ {i : Nat} {pre : List α} {ys : List β} (rest : List α),
      mapWithIndexE f i pre = .ok ys →
      mapWithIndexE f i (pre ++ rest) =
        (mapWithIndexE f (i + pre.length) rest).map (fun zs => ys ++ zs) := by
  intro i pre
  induction pre generalizing i with
  | nil =>
      intro ys rest h
      simp only [mapWithIndexE] at h
      cases h
      simp only [List.nil_append, List.length_nil, Nat.add_zero]
      cases mapWithIndexE f i rest <;> simp [Except.map]
  | cons a as ih =>
      intro ys rest h
      simp only [mapWithIndexE, bind, Except.bind] at h
      cases hf : f i a with
      | error e => rw [hf] at h; cases h
      | ok b =>
          rw [hf] at h
          cases hrest : mapWithIndexE f (i + 1) as with
          | error e => rw [hrest] at h; cases h
          | ok bs =>
              rw [hrest] at h
              cases h
              simp only [List.cons_append, mapWithIndexE, bind, Except.bind,
                hf, List.append_eq]
              rw [ih rest hrest]
              have hidx : i + 1 + as.length = i + (a :: as).length := by
                simp [List.length_cons]; omega
              rw [hidx]
              cases mapWithIndexE f (i + (a :: as).length) rest <;>
                simp [Except.map]

/-- A record with accessible but invalid coordinates makes the strict map
raise the descriptive error naming it. -/
theorem strictMapOne_invalid {genImg : JsVal → String} {now i : Nat}
    {loc c nm : JsVal}
    (hc : loc.getProp ("coordinates") = .ok c)
    (hinv : isValidCoordinates c = false)
    (hnm : loc.getProp ("name") = .ok nm) :
    strictMapOne genImg now i loc =
      .error (("Invalid coordinates for location: ") ++ jsStringOf nm) := by
  simp [strictMapOne, bind, Except.bind, hc, hinv, hnm]

/-- C2, amended: strict-mode normalization does raise an error naming the
offending location — the first invalid record of the batch — but
permissive-mode normalization does not omit invalid records: whenever its
per-record mapping completes, the output has one Location per input record,
out-of-range coordinates included (and a record whose processing throws
aborts the whole call rather than being skipped). -/
theorem claim2_amended :
    (∀ (genImg : JsVal → String) (now : Nat) (pre post : List JsVal)
        (loc c nm : JsVal) (outPre : List Loc),
        mapWithIndexE (strictMapOne genImg now) 0 pre = .ok outPre →
        loc.getProp ("coordinates") = .ok c →
        isValidCoordinates c = false →
        loc.getProp ("name") = .ok nm →
        mapWithIndexE (strictMapOne genImg now) 0 (pre ++ loc :: post) =
          .error (("Invalid coordinates for location: ") ++ jsStringOf nm)) ∧
    (∀ (genImg : JsVal → String) (rand : Nat → ℚ) (now k : Nat)
        (xs : List JsVal) (out : List Loc),
        mapWithIndexE (extractOne genImg rand now) k xs = .ok out →
        out.length = xs.length) := by
  constructor
  · intro genImg now pre post loc c nm outPre hpre hc hinv hnm
    rw [mapWithIndexE_append _ hpre]
    have herr := @strictMapOne_invalid genImg now pre.length loc c nm
      hc hinv hnm
    simp only [Nat.zero_add]
    simp [mapWithIndexE, bind, Except.bind, herr, Except.map]
  · intro genImg rand now k xs out h
    exact mapWithIndexE_ok_length h

set_option maxRecDepth 8192 in
/-- C2, counterexample: on a batch holding an out-of-range record followed
by a well-formed one, the permissive path returns both records — the
invalid one is not omitted. -/
theorem claim2_counterexample :
    ((extractLocationsFromResponse (fun _ => ("img")) (fun _ => 0) 0
        ("\x7b\"locations\":[\x7b\"name\":\"Bad\",\"coordinates\":\x7b\"0\":200,\"1\":0\x7d\x7d,\x7b\"name\":\"Good\",\"coordinates\":\x7b\"0\":1,\"1\":2\x7d\x7d]\x7d")).map
          (fun l => (l.name.asStr, numView l.position.1, numView l.position.2))) =
      [(some ("Bad"), some (200, 1), some (0, 1)),
       (some ("Good"), some (1, 1), some (2, 1))] ∧ ¬ ((200 : ℚ) ≤ 90) := by
  constructor
  · with_unfolding_all rfl
  · norm_num

set_option maxRecDepth 8192 in
/-- C2, witness: the amended theorem applied to a one-record invalid batch
(strict half) and a one-record mapped batch (permissive half). -/
theorem claim2_amended_witness :
    mapWithIndexE (strictMapOne (fun _ => ("img")) 7) 0
        ([] ++ (JsVal.obj [(("name"), .str ("Bad")),
          (("coordinates"), .arr [.num 200, .num 0])]) :: []) =
      .error (("Invalid coordinates for location: ") ++
        jsStringOf (.str ("Bad"))) ∧
    ([(⟨("loc-7-0"), .str ("Good"), (.num 1, .num 2), .num 3,
        .num 77, .str ("d"), .str ("i")⟩ : Loc)]).length =
      [JsVal.obj [(("name"), .str ("Good")),
        (("coordinates"), .arr [.num 1, .num 2]),
        (("rating"), .num 3), (("reviews"), .num 77),
        (("image"), .str ("i")), (("description"), .str ("d"))]].length := by
  constructor
  · exact claim2_amended.1 (fun _ => ("img")) 7 [] []
      (JsVal.obj [(("name"), .str ("Bad")),
        (("coordinates"), .arr [.num 200, .num 0])])
      (.arr [.num 200, .num 0]) (.str ("Bad")) [] rfl rfl (by decide) rfl
  · exact claim2_amended.2 (fun _ => ("img")) (fun _ => 0) 7 0 _ _
      (by with_unfolding_all rfl)

/-! ### Claim C3 -/

/-- Success shape of one permissive record: every read succeeded and each
output field is the corresponding `||`-defaulted expression. -/
theorem extractOne_ok_fields {genImg : JsVal → String} {rand : Nat → ℚ}
    {now i : Nat} {loc : JsVal} {l : Loc}
    (h : extractOne genImg rand now i loc = .ok l) :
    ∃ nmv coords lat lng ratingv reviewsv imgv descv,
      loc.getProp ("name") = .ok nmv ∧
      loc.getProp ("coordinates") = .ok coords ∧
      coords.atIndex 0 = .ok lat ∧ coords.atIndex 1 = .ok lng ∧
      loc.getProp ("rating") = .ok ratingv ∧
      loc.getProp ("reviews") = .ok reviewsv ∧
      loc.getProp ("image") = .ok imgv ∧
      loc.getProp ("description") = .ok descv ∧
      l.id = String.mk (("loc-").toList ++ decRepr now ++ '-' :: decRepr i) ∧
      l.name = nmv ∧ l.position = (lat, lng) ∧
      l.rating = jsOr ratingv (.num (4.5 : ℚ)) ∧
      l.reviews = jsOr reviewsv (.num (jsFloor (rand i * 40000) + 10000)) := by
  simp only [extractOne, bind, Except.bind] at h
  cases h1 : loc.getProp ("name") with
  | error e => simp only [h1] at h; cases h
  | ok nmv =>
  simp only [h1] at h
  cases h2 : loc.getProp ("coordinates") with
  | error e => simp only [h2] at h; cases h
  | ok coords =>
  simp only [h2] at h
  cases h3 : coords.atIndex 0 with
  | error e => simp only [h3] at h; cases h
  | ok lat =>
  simp only [h3] at h
  cases h4 : coords.atIndex 1 with
  | error e => simp only [h4] at h; cases h
  | ok lng =>
  simp only [h4] at h
  cases h5 : loc.getProp ("rating") with
  | error e => simp only [h5] at h; cases h
  | ok ratingv =>
  simp only [h5] at h
  cases h6 : loc.getProp ("reviews") with
  | error e => simp only [h6] at h; cases h
  | ok reviewsv =>
  simp only [h6] at h
  cases h7 : loc.getProp ("image") with
  | error e => simp only [h7] at h; cases h
  | ok imgv =>
  simp only [h7] at h
  cases h8 : loc.getProp ("description") with
  | error e => simp only [h8] at h; cases h
  | ok descv =>
  simp only [h8] at h
  cases h
  exact ⟨nmv, coords, lat, lng, ratingv, reviewsv, imgv, descv,
    rfl, rfl, h3, h4, rfl, rfl, rfl, rfl, rfl, rfl, rfl, rfl, rfl⟩

/-- Success shape of one `ChatMessage` record. -/
theorem chatOne_ok_fields {chatImg : JsVal → String} {now i : Nat}
    {loc : JsVal} {l : Loc} (h : chatOne chatImg now i loc = .ok l) :
    ∃ nmv coords lat lng ratingv reviewsv imgv descv,
      loc.getProp ("name") = .ok nmv ∧
      loc.getProp ("coordinates") = .ok coords ∧
      coords.atIndex 0 = .ok lat ∧ coords.atIndex 1 = .ok lng ∧
      loc.getProp ("rating") = .ok ratingv ∧
      loc.getProp ("reviews") = .ok reviewsv ∧
      loc.getProp ("image") = .ok imgv ∧
      loc.getProp ("description") = .ok descv ∧
      l.id = String.mk (("loc-").toList ++ decRepr now ++ '-' :: decRepr i) ∧
      l.name = nmv ∧ l.position = (toNumber lat, toNumber lng) ∧
      l.rating = jsOr ratingv (.num (4.5 : ℚ)) ∧
      l.reviews = jsOr reviewsv (.num 1000) := by
  simp only [chatOne, bind, Except.bind] at h
  cases h1 : loc.getProp ("name") with
  | error e => simp only [h1] at h; cases h
  | ok nmv =>
  simp only [h1] at h
  cases h2 : loc.getProp ("coordinates") with
  | error e => simp only [h2] at h; cases h
  | ok coords =>
  simp only [h2] at h
  cases h3 : coords.atIndex 0 with
  | error e => simp only [h3] at h; cases h
  | ok lat =>
  simp only [h3] at h
  cases h4 : coords.atIndex 1 with
  | error e => simp only [h4] at h; cases h
  | ok lng =>
  simp only [h4] at h
  cases h5 : loc.getProp ("rating") with
  | error e => simp only [h5] at h; cases h
  | ok ratingv =>
  simp only [h5] at h
  cases h6 : loc.getProp ("reviews") with
  | error e => simp only [h6] at h; cases h
  | ok reviewsv =>
  simp only [h6] at h
  cases h7 : loc.getProp ("image") with
  | error e => simp only [h7] at h; cases h
  | ok imgv =>
  simp only [h7] at h
  cases h8 : loc.getProp ("description") with
  | error e => simp only [h8] at h; cases h
  | ok descv =>
  simp only [h8] at h
  cases h
  exact ⟨nmv, coords, lat, lng, ratingv, reviewsv, imgv, descv,
    rfl, rfl, h3, h4, rfl, rfl, rfl, rfl, rfl, rfl, rfl, rfl, rfl⟩

/-- Success shape of one strict record: the validated coordinates and the
`Number(...) || 0` numeric defaults. -/
theorem strictMapOne_ok_fields {genImg : JsVal → String} {now i : Nat}
    {loc : JsVal} {l : Loc} (h : strictMapOne genImg now i loc = .ok l) :
    ∃ coords nmv nm ratingv reviewsv descv,
      loc.getProp ("coordinates") = .ok coords ∧
      isValidCoordinates coords = true ∧
      loc.getProp ("name") = .ok nmv ∧ jsTrimCall nmv = .ok nm ∧
      loc.getProp ("rating") = .ok ratingv ∧
      loc.getProp ("reviews") = .ok reviewsv ∧
      loc.getProp ("description") = .ok descv ∧
      l.id = String.mk (decRepr now ++ ("-loc-").toList ++ decRepr i) ∧
      l.name = .str nm ∧
      l.position = (match coords with
        | .arr [x, y] => (x, y)
        | _ => (.undefVal, .undefVal)) ∧
      l.rating = jsOr (toNumber ratingv) (.num 0) ∧
      l.reviews = jsOr (toNumber reviewsv) (.num 0) := by
  simp only [strictMapOne, bind, Except.bind] at h
  cases hc : loc.getProp ("coordinates") with
  | error e => simp only [hc] at h; cases h
  | ok coords =>
  simp only [hc] at h
  by_cases hv : isValidCoordinates coords = true
  · rw [if_pos hv] at h
    cases hn : loc.getProp ("name") with
    | error e => simp only [hn] at h; cases h
    | ok nmv =>
    simp only [hn] at h
    cases ht : jsTrimCall nmv with
    | error e => simp only [ht] at h; cases h
    | ok nm =>
    simp only [ht] at h
    cases hr : loc.getProp ("rating") with
    | error e => simp only [hr] at h; cases h
    | ok ratingv =>
    simp only [hr] at h
    cases hw : loc.getProp ("reviews") with
    | error e => simp only [hw] at h; cases h
    | ok reviewsv =>
    simp only [hw] at h
    cases hd : loc.getProp ("description") with
    | error e => simp only [hd] at h; cases h
    | ok descv =>
    simp only [hd] at h
    cases hot : jsOptTrim descv with
    | error e => simp only [hot] at h; cases h
    | ok desc =>
    simp only [hot] at h
    cases hi : loc.getProp ("image") with
    | error e => simp only [hi] at h; cases h
    | ok imgv =>
    simp only [hi] at h
    cases h
    exact ⟨coords, nmv, nm, ratingv, reviewsv, descv,
      rfl, hv, rfl, ht, rfl, rfl, rfl, rfl, rfl, rfl, rfl, rfl⟩
  · rw [if_neg hv] at h
    cases hn : loc.getProp ("name") with
    | error e => simp only [hn] at h; cases h
    | ok nmv => simp only [hn] at h; cases h

/-- C3, amended: the 4.5 rating fallback for an absent or null rating holds
only in the permissive and `ChatMessage` paths (and, with jitter, in the
text path); the strict path `parseJsonLocations` falls back to 0 instead. -/
theorem claim3_amended :
    (∀ (genImg : JsVal → String) (now i : Nat) (loc : JsVal) (l : Loc),
        (loc.getProp ("rating") = .ok .undefVal ∨
         loc.getProp ("rating") = .ok .null) →
        strictMapOne genImg now i loc = .ok l → l.rating = .num 0) ∧
    (∀ (genImg : JsVal → String) (rand : Nat → ℚ) (now i : Nat)
        (loc : JsVal) (l : Loc),
        (loc.getProp ("rating") = .ok .undefVal ∨
         loc.getProp ("rating") = .ok .null) →
        extractOne genImg rand now i loc = .ok l →
        l.rating = .num (4.5 : ℚ)) ∧
    (∀ (chatImg : JsVal → String) (now i : Nat) (loc : JsVal) (l : Loc),
        (loc.getProp ("rating") = .ok .undefVal ∨
         loc.getProp ("rating") = .ok .null) →
        chatOne chatImg now i loc = .ok l → l.rating = .num (4.5 : ℚ)) ∧
    (∀ (now k : Nat) (nm : String) (c : ℚ × ℚ) (kd img : String)
        (dc : Option (List Char)) (rA rB : ℚ),
        (mkTextLoc now k nm c kd img dc rA rB).rating =
          .num ((4.5 : ℚ) + rA * (0.5 : ℚ))) := by
  refine ⟨?_, ?_, ?_, ?_⟩
  · intro genImg now i loc l hr h
    obtain ⟨coords, nmv, nm, ratingv, reviewsv, descv, _, _, _, _, hrat, _, _,
      _, _, _, hlr, _⟩ := strictMapOne_ok_fields h
    rcases hr with hru | hrn
    · rw [hru] at hrat; cases hrat; rw [hlr]; rfl
    · rw [hrn] at hrat; cases hrat; rw [hlr]; rfl
  · intro genImg rand now i loc l hr h
    obtain ⟨nmv, coords, lat, lng, ratingv, reviewsv, imgv, descv, _, _, _, _,
      hrat, _, _, _, _, _, _, hlr, _⟩ := extractOne_ok_fields h
    rcases hr with hru | hrn
    · rw [hru] at hrat; cases hrat; rw [hlr]; rfl
    · rw [hrn] at hrat; cases hrat; rw [hlr]; rfl
  · intro chatImg now i loc l hr h
    obtain ⟨nmv, coords, lat, lng, ratingv, reviewsv, imgv, descv, _, _, _, _,
      hrat, _, _, _, _, _, _, hlr, _⟩ := chatOne_ok_fields h
    rcases hr with hru | hrn
    · rw [hru] at hrat; cases hrat; rw [hlr]; rfl
    · rw [hrn] at hrat; cases hrat; rw [hlr]; rfl
  · intro now k nm c kd img dc rA rB
    rfl

set_option maxRecDepth 8192 in
/-- C3, counterexample: the claim promises a 4.5 fallback in every
Normalizer entry point, but the strict path gives a location with an
absent rating the value 0, and 0 is not 4.5. -/
theorem claim3_counterexample :
    (((parseJsonLocations (fun _ => ("img")) 7
        ("\x7b\"locations\":[\x7b\"name\":\"Eiffel\",\"coordinates\":[48,2]\x7d]\x7d")).toOption.getD []).map
          (fun l => numView l.rating)) = [some (0, 1)] ∧
      ¬ ((0 : ℚ) = (4.5 : ℚ)) := by
  constructor
  · with_unfolding_all rfl
  · norm_num

set_option maxRecDepth 8192 in
/-- C3, witness: the amended theorem applied to a concrete record with no
rating field in each of the four paths. -/
theorem claim3_amended_witness :
    ((⟨("7-loc-0"), .str ("N"), (.num 1, .num 2), .num 0, .num 0,
        .str (""), .str ("img")⟩ : Loc)).rating = .num 0 ∧
    (mkTextLoc 7 0 ("N") (1, 2) ("kd") ("img") none 0 0).rating =
      .num ((4.5 : ℚ) + 0 * (0.5 : ℚ)) := by
  constructor
  · exact claim3_amended.1 (fun _ => ("img")) 7 0
      (JsVal.obj [(("name"), .str ("N")),
        (("coordinates"), .arr [.num 1, .num 2])]) _
      (Or.inl rfl) (by with_unfolding_all rfl)
  · exact claim3_amended.2.2.2 7 0 ("N") (1, 2) ("kd") ("img") none 0 0

/-! ### Claim C4 -/

/-- The permissive review fallback `Math.floor(r * 40000) + 10000` is an
integer in [10000, 50000) whenever the random draw is in [0, 1). -/
theorem reviews_fallback_int (r : ℚ) (h0 : 0 ≤ r) (h1 : r < 1) :
    ∃ n : ℤ, jsFloor (r * 40000) + 10000 = (n : ℚ) ∧
      10000 ≤ n ∧ n < 50000 := by
  refine ⟨⌊r * 40000⌋ + 10000, ?_, ?_, ?_⟩
  · simp only [jsFloor]
    push_cast
    ring
  · have hnn : (0 : ℤ) ≤ ⌊r * 40000⌋ := Int.floor_nonneg.mpr (by positivity)
    omega
  · have hlt : ⌊r * 40000⌋ < 40000 := by
      apply Int.floor_lt.mpr
      push_cast
      nlinarith
    omega

/-- C4, amended: for an absent or null reviews field, only the permissive
path (and the text path) produce the pseudo-random integer fallback in
[10000, 50000); `parseJsonLocations` produces 0 and the `ChatMessage` path
produces 1000. -/
theorem claim4_amended :
    (∀ (genImg : JsVal → String) (now i : Nat) (loc : JsVal) (l : Loc),
        (loc.getProp ("reviews") = .ok .undefVal ∨
         loc.getProp ("reviews") = .ok .null) →
        strictMapOne genImg now i loc = .ok l → l.reviews = .num 0) ∧
    (∀ (chatImg : JsVal → String) (now i : Nat) (loc : JsVal) (l : Loc),
        (loc.getProp ("reviews") = .ok .undefVal ∨
         loc.getProp ("reviews") = .ok .null) →
        chatOne chatImg now i loc = .ok l → l.reviews = .num 1000) ∧
    (∀ (genImg : JsVal → String) (rand : Nat → ℚ) (now i : Nat)
        (loc : JsVal) (l : Loc),
        (loc.getProp ("reviews") = .ok .undefVal ∨
         loc.getProp ("reviews") = .ok .null) →
        0 ≤ rand i → rand i < 1 →
        extractOne genImg rand now i loc = .ok l →
        ∃ n : ℤ, l.reviews = .num (n : ℚ) ∧ 10000 ≤ n ∧ n < 50000) ∧
    (∀ (now k : Nat) (nm : String) (c : ℚ × ℚ) (kd img : String)
        (dc : Option (List Char)) (rA rB : ℚ),
        0 ≤ rB → rB < 1 →
        ∃ n : ℤ, (mkTextLoc now k nm c kd img dc rA rB).reviews =
          .num (n : ℚ) ∧ 10000 ≤ n ∧ n < 50000) := by
  refine ⟨?_, ?_, ?_, ?_⟩
  · intro genImg now i loc l hr h
    obtain ⟨coords, nmv, nm, ratingv, reviewsv, descv, _, _, _, _, _, hrev,
      _, _, _, _, _, hlr⟩ := strictMapOne_ok_fields h
    rcases hr with hru | hrn
    · rw [hru] at hrev; cases hrev; rw [hlr]; rfl
    · rw [hrn] at hrev; cases hrev; rw [hlr]; rfl
  · intro chatImg now i loc l hr h
    obtain ⟨nmv, coords, lat, lng, ratingv, reviewsv, imgv, descv, _, _, _, _,
      _, hrev, _, _, _, _, _, _, hlr⟩ := chatOne_ok_fields h
    rcases hr with hru | hrn
    · rw [hru] at hrev; cases hrev; rw [hlr]; rfl
    · rw [hrn] at hrev; cases hrev; rw [hlr]; rfl
  · intro genImg rand now i loc l hr h0 h1 h
    obtain ⟨nmv, coords, lat, lng, ratingv, reviewsv, imgv, descv, _, _, _, _,
      _, hrev, _, _, _, _, _, _, hlr⟩ := extractOne_ok_fields h
    obtain ⟨n, hn, hn1, hn2⟩ := reviews_fallback_int (rand i) h0 h1
    refine ⟨n, ?_, hn1, hn2⟩
    rcases hr with hru | hrn
    · rw [hru] at hrev; cases hrev; rw [hlr, ← hn]; rfl
    · rw [hrn] at hrev; cases hrev; rw [hlr, ← hn]; rfl
  · intro now k nm c kd img dc rA rB h0 h1
    obtain ⟨n, hn, hn1, hn2⟩ := reviews_fallback_int rB h0 h1
    exact ⟨n, by rw [← hn]; rfl, hn1, hn2⟩

set_option maxRecDepth 8192 in
/-- C4, counterexample: the claim promises a fallback in [10000, 50000)
— never zero — at every entry point, but the strict path gives a location
with an absent reviews field the value 0. -/
theorem claim4_counterexample :
    (((parseJsonLocations (fun _ => ("img")) 7
        ("\x7b\"locations\":[\x7b\"name\":\"Eiffel\",\"coordinates\":[48,2]\x7d]\x7d")).toOption.getD []).map
          (fun l => numView l.reviews)) = [some (0, 1)] ∧
      ¬ ((10000 : ℚ) ≤ 0) := by
  constructor
  · with_unfolding_all rfl
  · norm_num

set_option maxRecDepth 8192 in
/-- C4, witness: the amended theorem applied to a concrete record with no
reviews field in the permissive path, with the random draw 0. -/
theorem claim4_amended_witness :
    ∃ n : ℤ,
      ((⟨("loc-7-0"), .str ("N"), (.num 1, .num 2), .num (4.5 : ℚ),
          .num (jsFloor ((0 : ℚ) * 40000) + 10000), .str ("Visit N"),
          .str ("img")⟩ : Loc)).reviews = .num (n : ℚ) ∧
        10000 ≤ n ∧ n < 50000 := by
  exact claim4_amended.2.2.1 (fun _ => ("img")) (fun _ => 0) 7 0
    (JsVal.obj [(("name"), .str ("N")),
      (("coordinates"), .arr [.num 1, .num 2])]) _
    (Or.inl rfl) (by norm_num) (by norm_num) (by with_unfolding_all rfl)

/-! ### Claim C5 -/

/-- C5: for every raw record whose coordinates are a valid in-range
2-element numeric pair, both normalizers copy the pair into the output
position exactly — no transformation or rounding — and the output batch is
index-aligned with the input batch (order preserved).  In the strict map
success implies validity; in the permissive map the raw pair members are
copied verbatim whatever they are. -/
theorem claim5_positions_exact :
    (∀ (genImg : JsVal → String) (now : Nat) (raws : List JsVal)
        (out : List Loc),
        mapWithIndexE (strictMapOne genImg now) 0 raws = .ok out →
        out.length = raws.length ∧
        ∀ k (hk : k < out.length) (hk2 : k < raws.length),
          ∃ a b : ℚ,
            (raws.get ⟨k, hk2⟩).getProp ("coordinates") =
              .ok (.arr [.num a, .num b]) ∧
            -90 ≤ a ∧ a ≤ 90 ∧ -180 ≤ b ∧ b ≤ 180 ∧
            (out.get ⟨k, hk⟩).position = (.num a, .num b)) ∧
    (∀ (genImg : JsVal → String) (rand : Nat → ℚ) (now : Nat)
        (xs : List JsVal) (out : List Loc),
        mapWithIndexE (extractOne genImg rand now) 0 xs = .ok out →
        out.length = xs.length ∧
        ∀ k (hk : k < out.length) (hk2 : k < xs.length),
          ∃ coords lat lng,
            (xs.get ⟨k, hk2⟩).getProp ("coordinates") = .ok coords ∧
            coords.atIndex 0 = .ok lat ∧ coords.atIndex 1 = .ok lng ∧
            (out.get ⟨k, hk⟩).position = (lat, lng)) := by
  constructor
  · intro genImg now raws out h
    refine ⟨mapWithIndexE_ok_length h, ?_⟩
    intro k hk hk2
    have hg := mapWithIndexE_ok_get h k hk hk2
    rw [Nat.zero_add] at hg
    obtain ⟨coords, nmv, nm, ratingv, reviewsv, descv, hc, hv, _, _, _, _, _,
      _, _, hpos, _, _⟩ := strictMapOne_ok_fields hg
    obtain ⟨a, b, rfl, h1, h2, h3, h4⟩ := isValidCoordinates_spec hv
    exact ⟨a, b, hc, h1, h2, h3, h4, hpos⟩
  · intro genImg rand now xs out h
    refine ⟨mapWithIndexE_ok_length h, ?_⟩
    intro k hk hk2
    have hg := mapWithIndexE_ok_get h k hk hk2
    rw [Nat.zero_add] at hg
    obtain ⟨nmv, coords, lat, lng, ratingv, reviewsv, imgv, descv, _, hc, h0,
      h1, _, _, _, _, _, _, hpos, _, _⟩ := extractOne_ok_fields hg
    exact ⟨coords, lat, lng, hc, h0, h1, hpos⟩

set_option maxRecDepth 8192 in
/-- C5, witness: the strict half of the theorem applied to a concrete
two-record batch, read back at index 1. -/
theorem claim5_positions_exact_witness :
    ([(⟨("7-loc-0"), .str ("A"), (.num 1, .num 2), .num 0, .num 0,
        .str (""), .str ("img")⟩ : Loc),
      (⟨("7-loc-1"), .str ("B"), (.num 3, .num 4), .num 0, .num 0,
        .str (""), .str ("img")⟩ : Loc)].length =
      [JsVal.obj [(("name"), .str ("A")),
          (("coordinates"), .arr [.num 1, .num 2])],
        JsVal.obj [(("name"), .str ("B")),
          (("coordinates"), .arr [.num 3, .num 4])]].length) ∧
    (∃ a b : ℚ,
      ([JsVal.obj [(("name"), .str ("A")),
          (("coordinates"), .arr [.num 1, .num 2])],
        JsVal.obj [(("name"), .str ("B")),
          (("coordinates"), .arr [.num 3, .num 4])]].get
            ⟨1, by decide⟩).getProp ("coordinates") =
        .ok (.arr [.num a, .num b]) ∧
      -90 ≤ a ∧ a ≤ 90 ∧ -180 ≤ b ∧ b ≤ 180 ∧
      ([(⟨("7-loc-0"), .str ("A"), (.num 1, .num 2), .num 0, .num 0,
          .str (""), .str ("img")⟩ : Loc),
        (⟨("7-loc-1"), .str ("B"), (.num 3, .num 4), .num 0, .num 0,
          .str (""), .str ("img")⟩ : Loc)].get ⟨1, by decide⟩).position =
        (.num a, .num b)) := by
  have h := claim5_positions_exact.1 (fun _ => ("img")) 7
    [JsVal.obj [(("name"), .str ("A")),
        (("coordinates"), .arr [.num 1, .num 2])],
      JsVal.obj [(("name"), .str ("B")),
        (("coordinates"), .arr [.num 3, .num 4])]]
    [(⟨("7-loc-0"), .str ("A"), (.num 1, .num 2), .num 0, .num 0,
        .str (""), .str ("img")⟩ : Loc),
      (⟨("7-loc-1"), .str ("B"), (.num 3, .num 4), .num 0, .num 0,
        .str (""), .str ("img")⟩ : Loc)]
    (by with_unfolding_all rfl)
  exact ⟨h.1, h.2 1 (by decide) (by decide)⟩

/-! ### Claim C6 -/

/-- Strict ids with a common timestamp are injective in the batch index. -/
theorem strictId_inj {now i j : Nat}
    (h : String.mk (decRepr now ++ ("-loc-").toList ++ decRepr i) =
         String.mk (decRepr now ++ ("-loc-").toList ++ decRepr j)) :
    i = j := by
  have hd : decRepr now ++ ("-loc-").toList ++ decRepr i =
      decRepr now ++ ("-loc-").toList ++ decRepr j := congrArg String.data h
  simp only [List.append_assoc] at hd
  exact decRepr_injective (List.append_cancel_left (List.append_cancel_left hd))

/-- Permissive/text ids with a common timestamp are injective in the batch
index. -/
theorem extractId_inj {now i j : Nat}
    (h : String.mk (("loc-").toList ++ decRepr now ++ '-' :: decRepr i) =
         String.mk (("loc-").toList ++ decRepr now ++ '-' :: decRepr j)) :
    i = j := by
  have hd : ("loc-").toList ++ decRepr now ++ '-' :: decRepr i =
      ("loc-").toList ++ decRepr now ++ '-' :: decRepr j :=
    congrArg String.data h
  simp only [List.append_assoc] at hd
  have h2 := List.append_cancel_left (List.append_cancel_left hd)
  injection h2 with _ h3
  exact decRepr_injective h3

/-- A list whose ids determine the index has pairwise-distinct ids. -/
theorem pairwise_ids_of_get_inj {l : List Loc}
    (hinj : ∀ (i j : Nat) (hi : i < l.length) (hj : j < l.length),
      (l.get ⟨i, hi⟩).id = (l.get ⟨j, hj⟩).id → i = j) :
    (l.map Loc.id).Pairwise (fun a b => a ≠ b) := by
  rw [List.pairwise_map, List.pairwise_iff_get]
  intro i j hij heq
  have hij2 : (i : Nat) < (j : Nat) := hij
  have := hinj i j i.isLt j.isLt heq
  omega

/-- Each strict output id embeds its batch index. -/
theorem strict_out_ids {genImg : JsVal → String} {now : Nat}
    {raws : List JsVal} {out : List Loc}
    (h : mapWithIndexE (strictMapOne genImg now) 0 raws = .ok out) :
    ∀ k (hk : k < out.length), (out.get ⟨k, hk⟩).id =
      String.mk (decRepr now ++ ("-loc-").toList ++ decRepr k) := by
  intro k hk
  have hk2 : k < raws.length := by rw [← mapWithIndexE_ok_length h]; exact hk
  have hg := mapWithIndexE_ok_get h k hk hk2
  rw [Nat.zero_add] at hg
  obtain ⟨cv, nv0, nv1, rv0, rv1, dv0, _, _, _, _, _, _, _, hid, _⟩ :=
    strictMapOne_ok_fields hg
  exact hid

/-- Each permissive output id embeds its batch index. -/
theorem extract_out_ids {genImg : JsVal → String} {rand : Nat → ℚ}
    {now : Nat} {xs : List JsVal} {out : List Loc}
    (h : mapWithIndexE (extractOne genImg rand now) 0 xs = .ok out) :
    ∀ k (hk : k < out.length), (out.get ⟨k, hk⟩).id =
      String.mk (("loc-").toList ++ decRepr now ++ '-' :: decRepr k) := by
  intro k hk
  have hk2 : k < xs.length := by rw [← mapWithIndexE_ok_length h]; exact hk
  have hg := mapWithIndexE_ok_get h k hk hk2
  rw [Nat.zero_add] at hg
  obtain ⟨nv0, cv, la0, ln0, rv0, rv1, iv0, dv0, _, _, _, _, _, _, _, _,
    hid, _⟩ := extractOne_ok_fields hg
  exact hid

/-- A successful text-candidate step yields the id of the push position. -/
theorem textStep_ok_id {now k : Nat}
    {gc : String → Except String (ℚ × ℚ)}
    {gd gi : String → Except String String} {rA rB : Nat → ℚ}
    {m : TextMatch} {l : Loc}
    (h : textStep now k gc gd gi rA rB m = .ok l) :
    l.id = String.mk (("loc-").toList ++ decRepr now ++ '-' :: decRepr k) := by
  simp only [textStep, bind, Except.bind] at h
  cases h1 : gc ((String.mk m.rawName).trim) with
  | error e => simp only [h1] at h; cases h
  | ok coords =>
  simp only [h1] at h
  cases h2 : gd ((String.mk m.rawName).trim) with
  | error e => simp only [h2] at h; cases h
  | ok kd =>
  simp only [h2] at h
  cases h3 : gi ((String.mk m.rawName).trim) with
  | error e => simp only [h3] at h; cases h
  | ok img =>
  simp only [h3] at h
  cases h
  rfl

/-- Every id produced by the text loop embeds its position in the pushed
list. -/
theorem textLoop_ids {now : Nat} {gc : String → Except String (ℚ × ℚ)}
    {gd gi : String → Except String String} {rA rB : Nat → ℚ} :
    ∀ (ms : List TextMatch) (acc : List Loc),
      (∀ k l, acc.get? k = some l → l.id =
        String.mk (("loc-").toList ++ decRepr now ++ '-' :: decRepr k)) →
      ∀ k l, (textLoop now gc gd gi rA rB ms acc).get? k = some l →
        l.id = String.mk (("loc-").toList ++ decRepr now ++ '-' :: decRepr k) := by
  intro ms
  induction ms with
  | nil =>
      intro acc hacc k l hget
      simp only [textLoop] at hget
      exact hacc k l hget
  | cons m rest ih =>
      intro acc hacc k l hget
      by_cases hshort : m.rawName.length < 2
      · simp only [textLoop, if_pos hshort] at hget
        exact ih acc hacc k l hget
      · simp only [textLoop, if_neg hshort] at hget
        cases hE : textStep now acc.length gc gd gi rA rB m with
        | error e =>
            simp only [hE] at hget
            exact hacc k l hget
        | ok lnew =>
            simp only [hE] at hget
            refine ih (acc ++ [lnew]) ?_ k l hget
            intro kk ll hkk
            rcases Nat.lt_or_ge kk acc.length with hlt | hge
            · rw [List.get?_append hlt] at hkk
              exact hacc kk ll hkk
            · rcases Nat.lt_or_ge kk (acc ++ [lnew]).length with hlt2 | hge2
              · have hkeq : kk = acc.length := by
                  simp only [List.length_append, List.length_cons,
                    List.length_nil] at hlt2
                  omega
                subst hkeq
                rw [List.get?_concat_length] at hkk
                cases hkk
                exact textStep_ok_id hE
              · rw [List.get?_eq_none.mpr hge2] at hkk
                cases hkk

/-- C6: in each of the three batch producers the ids of one call are
pairwise distinct, because each id embeds the element index (`Date.now()`
being fixed within the call). -/
theorem claim6_batch_ids_distinct :
    (∀ (genImg : JsVal → String) (now : Nat) (text : String)
        (out : List Loc),
        parseJsonLocations genImg now text = .ok out →
        (out.map Loc.id).Pairwise (fun a b => a ≠ b)) ∧
    (∀ (genImg : JsVal → String) (rand : Nat → ℚ) (now : Nat)
        (text : String),
        ((extractLocationsFromResponse genImg rand now text).map
          Loc.id).Pairwise (fun a b => a ≠ b)) ∧
    (∀ (now : Nat) (gc : String → Except String (ℚ × ℚ))
        (gd gi : String → Except String String) (rA rB : Nat → ℚ)
        (text : String),
        ((parseTextLocations now gc gd gi rA rB text).map
          Loc.id).Pairwise (fun a b => a ≠ b)) := by
  refine ⟨?_, ?_, ?_⟩
  · intro genImg now text out h
    simp only [parseJsonLocations] at h
    split at h
    · cases h
    · apply pairwise_ids_of_get_inj
      intro i j hi hj heq
      rw [strict_out_ids h i hi, strict_out_ids h j hj] at heq
      exact strictId_inj heq
  · intro genImg rand now text
    simp only [extractLocationsFromResponse]
    repeat' split
    all_goals try (simp only [List.map_nil]; exact List.Pairwise.nil)
    rename_i out hm
    apply pairwise_ids_of_get_inj
    intro i j hi hj heq
    rw [extract_out_ids hm i hi, extract_out_ids hm j hj] at heq
    exact extractId_inj heq
  · intro now gc gd gi rA rB text
    apply pairwise_ids_of_get_inj
    intro i j hi hj heq
    have hempty : ∀ k l, ([] : List Loc).get? k = some l → l.id =
        String.mk (("loc-").toList ++ decRepr now ++ '-' :: decRepr k) := by
      intro k l hk
      simp at hk
    have h1 := textLoop_ids (findTextMatches text) [] hempty i _
      (List.get?_eq_get hi)
    have h2 := textLoop_ids (findTextMatches text) [] hempty j _
      (List.get?_eq_get hj)
    rw [h1, h2] at heq
    exact extractId_inj heq

set_option maxRecDepth 8192 in
/-- C6, witness: the strict conjunct applied to a concrete successful
batch. -/
theorem claim6_batch_ids_distinct_witness :
    (([(⟨("7-loc-0"), .str ("Eiffel"), (.num 48, .num 2), .num 0, .num 0,
        .str (""), .str ("img")⟩ : Loc)]).map Loc.id).Pairwise
      (fun a b => a ≠ b) := by
  exact claim6_batch_ids_distinct.1 (fun _ => ("img")) 7
    ("\x7b\"locations\":[\x7b\"name\":\"Eiffel\",\"coordinates\":[48,2]\x7d]\x7d") _
    (by with_unfolding_all rfl)

/-! ### Claim C7 -/

theorem take_append_le {l e : List α} :
    ∀ {n : Nat}, n ≤ l.length → (l ++ e).take n = l.take n := by
  induction l with
  | nil =>
      intro n h
      have hn : n = 0 := by simpa using h
      subst hn
      simp
  | cons c rest ih =>
      intro n h
      match n with
      | 0 => rfl
      | n + 1 =>
          simp only [List.cons_append, List.take_succ_cons]
          rw [ih (by simpa using h)]

theorem drop_append_le {l e : List α} :
    ∀ {n : Nat}, n ≤ l.length → (l ++ e).drop n = l.drop n ++ e := by
  induction l with
  | nil =>
      intro n h
      have hn : n = 0 := by simpa using h
      subst hn
      simp
  | cons c rest ih =>
      intro n h
      match n with
      | 0 => rfl
      | n + 1 =>
          simp only [List.cons_append, List.drop_succ_cons]
          exact ih (by simpa using h)

/-- A literal prefix match survives appending more streamed text. -/
theorem litAt_append {lit : List Char} :
    ∀ {s : List Char} (e : List Char), litAt lit s = true →
      litAt lit (s ++ e) = true := by
  induction lit with
  | nil => intro s e _; rfl
  | cons a as ih =>
      intro s e h
      cases s with
      | nil => simp [litAt] at h
      | cons b bs =>
          simp only [List.cons_append, litAt] at h ⊢
          by_cases hc : a == b
          · rw [if_pos hc] at h ⊢
            exact ih e h
          · rw [if_neg hc] at h
            cases h

/-- Once the weather marker has been seen, it is still seen in every
extension of the streamed text. -/
theorem splitAtMarker_mono :
    ∀ {s : List Char} (e : List Char),
      (splitAtMarker s).isSome = true →
      (splitAtMarker (s ++ e)).isSome = true := by
  intro s
  induction s with
  | nil => intro e h; simp [splitAtMarker] at h
  | cons c rest ih =>
      intro e h
      simp only [List.cons_append, splitAtMarker, List.append_eq]
      split
      · rfl
      · rename_i hlit
        simp only [splitAtMarker] at h
        split at h
        · rename_i hlit0
          have := litAt_append e hlit0
          simp only [List.cons_append] at this
          exact absurd this hlit
        · have hsome : (splitAtMarker rest).isSome = true := by
            cases hr : splitAtMarker rest with
            | none => rw [hr] at h; simp at h
            | some p => rfl
          have h2 := ih e hsome
          simpa using h2

/-- The index of the first plausible JSON start is stable under extension. -/
theorem findJsonStartAux_mono :
    ∀ {s : List Char} {prev : Option Char} {i : Nat} (e : List Char),
      findJsonStartAux prev s = some i →
      findJsonStartAux prev (s ++ e) = some i := by
  intro s
  induction s with
  | nil => intro prev i e h; simp [findJsonStartAux] at h
  | cons c rest ih =>
      intro prev i e h
      simp only [findJsonStartAux] at h
      simp only [List.cons_append, findJsonStartAux, List.append_eq]
      split at h
      · rename_i hcond
        rw [if_pos hcond]
        exact h
      · rename_i hcond
        rw [if_neg hcond]
        cases hrest : findJsonStartAux (some c) rest with
        | none => rw [hrest] at h; cases h
        | some i0 =>
            rw [hrest] at h
            cases h
            rw [ih e hrest]
            rfl

/-- The first plausible JSON start lies inside the text. -/
theorem findJsonStartAux_lt :
    ∀ {s : List Char} {prev : Option Char} {i : Nat},
      findJsonStartAux prev s = some i → i < s.length := by
  intro s
  induction s with
  | nil => intro prev i h; simp [findJsonStartAux] at h
  | cons c rest ih =>
      intro prev i h
      simp only [findJsonStartAux] at h
      split at h
      · cases h; simp
      · cases hrest : findJsonStartAux (some c) rest with
        | none => rw [hrest] at h; cases h
        | some i0 =>
            rw [hrest] at h
            cases h
            have := ih hrest
            simp only [List.length_cons]
            omega

/-- A balanced object found by the brace scanner fits in the scanned text. -/
theorem braceScan_le :
    ∀ {s : List Char} {d : Nat} {a b : Bool} {n : Nat},
      braceScan d a b s = some n → n ≤ s.length := by
  intro s
  induction s with
  | nil => intro d a b n h; simp [braceScan] at h
  | cons c rest ih =>
      intro d a b n h
      simp only [braceScan] at h
      have step : ∀ {d2 : Nat} {a2 b2 : Bool},
          (braceScan d2 a2 b2 rest).map (· + 1) = some n →
          n ≤ (c :: rest).length := by
        intro d2 a2 b2 hm
        cases hr : braceScan d2 a2 b2 rest with
        | none => rw [hr] at hm; cases hm
        | some m =>
            rw [hr] at hm
            cases hm
            have := ih hr
            simp only [List.length_cons]
            omega
      by_cases ha : a = true
      · rw [if_pos ha] at h
        by_cases hb : b = true
        · rw [if_pos hb] at h; exact step h
        · rw [if_neg hb] at h
          by_cases h1 : c = '\\'
          · rw [if_pos h1] at h; exact step h
          · rw [if_neg h1] at h
            by_cases h2 : c = '\"'
            · rw [if_pos h2] at h; exact step h
            · rw [if_neg h2] at h; exact step h
      · rw [if_neg ha] at h
        by_cases h1 : c = '{'
        · rw [if_pos h1] at h; exact step h
        · rw [if_neg h1] at h
          by_cases h2 : c = '}'
          · rw [if_pos h2] at h
            by_cases hd : d = 1
            · rw [if_pos hd] at h
              cases h
              simp
            · rw [if_neg hd] at h; exact step h
          · rw [if_neg h2] at h
            by_cases h3 : c = '\"'
            · rw [if_pos h3] at h; exact step h
            · rw [if_neg h3] at h; exact step h

/-- The brace scanner's verdict on a balanced object is stable under
extension of the streamed text. -/
theorem braceScan_mono :
    ∀ {s : List Char} {d : Nat} {a b : Bool} {n : Nat} (e : List Char),
      braceScan d a b s = some n → braceScan d a b (s ++ e) = some n := by
  intro s
  induction s with
  | nil => intro d a b n e h; simp [braceScan] at h
  | cons c rest ih =>
      intro d a b n e h
      simp only [braceScan] at h
      simp only [List.cons_append, braceScan, List.append_eq]
      have step : ∀ {d2 : Nat} {a2 b2 : Bool},
          (braceScan d2 a2 b2 rest).map (· + 1) = some n →
          (braceScan d2 a2 b2 (rest ++ e)).map (· + 1) = some n := by
        intro d2 a2 b2 hm
        cases hr : braceScan d2 a2 b2 rest with
        | none => rw [hr] at hm; cases hm
        | some m =>
            rw [hr] at hm
            rw [ih e hr]
            exact hm
      by_cases ha : a = true
      · rw [if_pos ha] at h ⊢
        by_cases hb : b = true
        · rw [if_pos hb] at h ⊢; exact step h
        · rw [if_neg hb] at h ⊢
          by_cases h1 : c = '\\'
          · rw [if_pos h1] at h ⊢; exact step h
          · rw [if_neg h1] at h ⊢
            by_cases h2 : c = '\"'
            · rw [if_pos h2] at h ⊢; exact step h
            · rw [if_neg h2] at h ⊢; exact step h
      · rw [if_neg ha] at h ⊢
        by_cases h1 : c = '{'
        · rw [if_pos h1] at h ⊢; exact step h
        · rw [if_neg h1] at h ⊢
          by_cases h2 : c = '}'
          · rw [if_pos h2] at h ⊢
            by_cases hd : d = 1
            · rw [if_pos hd] at h ⊢; exact h
            · rw [if_neg hd] at h ⊢; exact step h
          · rw [if_neg h2] at h ⊢
            by_cases h3 : c = '\"'
            · rw [if_pos h3] at h ⊢; exact step h
            · rw [if_neg h3] at h ⊢; exact step h

/-- C7, amended: classification is stable under growth in one direction
only — a weather classification, once determinable, is never retracted;
and a JSON classification persists exactly (same extracted block) provided
the grown text still contains no weather marker.  A JSON classification CAN
be retracted when a weather marker arrives later in the stream (see the
counterexample), because weather detection takes precedence. -/
theorem claim7_amended (t ext : String) :
    ((processStreamingMessage t).weatherLocation.isSome = true →
      (processStreamingMessage (t ++ ext)).weatherLocation.isSome = true) ∧
    ((processStreamingMessage (t ++ ext)).weatherLocation = none →
      ∀ j, (processStreamingMessage t).jsonContent = some j →
        (processStreamingMessage (t ++ ext)).jsonContent = some j) := by
  have hdata : (t ++ ext).toList = t.toList ++ ext.toList := by
    simp [String.toList]
  constructor
  · intro h
    simp only [processStreamingMessage, hdata] at h ⊢
    cases hm : splitAtMarker t.toList with
    | none =>
        simp only [hm] at h
        exfalso
        cases hj : findJsonStart t.toList with
        | none => simp only [hj] at h; simp at h
        | some i =>
            simp only [hj] at h
            cases hb : braceScan 0 false false (t.toList.drop i) with
            | none => simp only [hb] at h; simp at h
            | some n => simp only [hb] at h; simp at h
    | some p =>
        have hsome : (splitAtMarker (t.toList ++ ext.toList)).isSome = true :=
          splitAtMarker_mono ext.toList (by rw [hm]; rfl)
        cases hm2 : splitAtMarker (t.toList ++ ext.toList) with
        | none => rw [hm2] at hsome; cases hsome
        | some p2 => simp [hm2]
  · intro hw j hj
    simp only [processStreamingMessage, hdata] at hw hj ⊢
    cases hm2 : splitAtMarker (t.toList ++ ext.toList) with
    | some p2 => simp only [hm2] at hw; simp at hw
    | none =>
        simp only [hm2]
        have hm : splitAtMarker t.toList = none := by
          cases hm0 : splitAtMarker t.toList with
          | none => rfl
          | some p =>
              have hsome : (splitAtMarker (t.toList ++ ext.toList)).isSome =
                  true :=
                splitAtMarker_mono ext.toList (by rw [hm0]; rfl)
              rw [hm2] at hsome
              cases hsome
        simp only [hm] at hj
        cases hs : findJsonStart t.toList with
        | none => simp only [hs] at hj; simp at hj
        | some i =>
            simp only [hs] at hj
            cases hb : braceScan 0 false false (t.toList.drop i) with
            | none => simp only [hb] at hj; simp at hj
            | some n =>
                simp only [hb] at hj
                simp only [Option.some.injEq] at hj
                have hs2 : findJsonStart (t.toList ++ ext.toList) = some i :=
                  findJsonStartAux_mono ext.toList hs
                have hilt : i < t.toList.length := findJsonStartAux_lt hs
                have hdrop : (t.toList ++ ext.toList).drop i =
                    t.toList.drop i ++ ext.toList :=
                  drop_append_le (Nat.le_of_lt hilt)
                have hb2 : braceScan 0 false false
                    ((t.toList ++ ext.toList).drop i) = some n := by
                  rw [hdrop]
                  exact braceScan_mono ext.toList hb
                have hnle : n ≤ (t.toList.drop i).length := braceScan_le hb
                simp only [hs2, hb2, Option.some.injEq]
                rw [hdrop, take_append_le hnle]
                exact hj

set_option maxRecDepth 8192 in
/-- C7, counterexample: a strict prefix classified as JSON (non-null
`jsonContent`) is reclassified as weather — `jsonContent` retracted to
null — once a weather marker arrives in later streamed text, so the two
classifications disagree where both are non-null. -/
theorem claim7_counterexample :
    (processStreamingMessage ("\x7b\"locations\": []\x7d")).jsonContent.isSome =
      true ∧
    (processStreamingMessage (("\x7b\"locations\": []\x7d") ++
      ("\nI should check the weather in Paris"))).weatherLocation.isSome =
      true ∧
    (processStreamingMessage (("\x7b\"locations\": []\x7d") ++
      ("\nI should check the weather in Paris"))).jsonContent = none := by
  refine ⟨?_, ?_, ?_⟩ <;> with_unfolding_all rfl

set_option maxRecDepth 8192 in
/-- C7, witness: the amended theorem applied to a weather prefix and to a
complete JSON prefix extended by marker-free text. -/
theorem claim7_amended_witness :
    (processStreamingMessage (("check the weather in P") ++
      ("x"))).weatherLocation.isSome = true ∧
    (processStreamingMessage (("\x7b\x7d") ++ ("x"))).jsonContent =
      some ("\x7b\x7d") := by
  constructor
  · exact (claim7_amended ("check the weather in P") ("x")).1
      (by with_unfolding_all rfl)
  · exact (claim7_amended ("\x7b\x7d") ("x")).2 (by with_unfolding_all rfl)
      ("\x7b\x7d") (by with_unfolding_all rfl)

/-! ### Claim C8 -/

/-- C8, amended: `parseTextLocations` never raises — the loop is total and
returns a list — and candidates failing the name-length check are skipped
with the scan continuing; but an internal (collaborator) error while
processing one candidate stops the scan: the call returns exactly the
locations accepted so far and drops the failing candidate AND all later
ones, rather than skipping just that candidate. -/
theorem claim8_amended :
    (∀ (now : Nat) (gc : String → Except String (ℚ × ℚ))
        (gd gi : String → Except String String) (rA rB : Nat → ℚ)
        (m : TextMatch) (rest : List TextMatch) (acc : List Loc) (e : String),
        ¬ m.rawName.length < 2 →
        textStep now acc.length gc gd gi rA rB m = .error e →
        textLoop now gc gd gi rA rB (m :: rest) acc = acc) ∧
    (∀ (now : Nat) (gc : String → Except String (ℚ × ℚ))
        (gd gi : String → Except String String) (rA rB : Nat → ℚ)
        (m : TextMatch) (rest : List TextMatch) (acc : List Loc),
        m.rawName.length < 2 →
        textLoop now gc gd gi rA rB (m :: rest) acc =
          textLoop now gc gd gi rA rB rest acc) ∧
    (∀ (now : Nat) (gc : String → Except String (ℚ × ℚ))
        (gd gi : String → Except String String) (rA rB : Nat → ℚ)
        (m : TextMatch) (rest : List TextMatch) (acc : List Loc) (l : Loc),
        ¬ m.rawName.length < 2 →
        textStep now acc.length gc gd gi rA rB m = .ok l →
        textLoop now gc gd gi rA rB (m :: rest) acc =
          textLoop now gc gd gi rA rB rest (acc ++ [l])) := by
  refine ⟨?_, ?_, ?_⟩
  · intro now gc gd gi rA rB m rest acc e hlen hE
    simp [textLoop, if_neg hlen, hE]
  · intro now gc gd gi rA rB m rest acc hlen
    simp [textLoop, if_pos hlen]
  · intro now gc gd gi rA rB m rest acc l hlen hE
    simp [textLoop, if_neg hlen, hE]

set_option maxRecDepth 8192 in
/-- C8, counterexample: with a collaborator that throws on the middle
candidate of three, the scan stops: only the first location is returned —
the third candidate is NOT processed, contradicting the claim that the
failing candidate is skipped and the scan continues. -/
theorem claim8_counterexample :
    ((parseTextLocations 7
        (fun s => if s = ("Bb") then .error ("boom") else .ok (1, 2))
        (fun _ => .ok ("kd")) (fun _ => .ok ("img"))
        (fun _ => 0) (fun _ => 0)
        ("1. Paris - a.\n2. Bb - b.\n3. Rome - c.")).map
          (fun l => l.name.asStr)) = [some ("Paris")] := by
  with_unfolding_all rfl

set_option maxRecDepth 8192 in
/-- C8, witness: the error conjunct of the amended theorem applied to a
concrete failing candidate followed by a further candidate. -/
theorem claim8_amended_witness :
    textLoop 7 (fun s => if s = ("Bb") then .error ("boom") else .ok (1, 2))
      (fun _ => .ok ("kd")) (fun _ => .ok ("img")) (fun _ => 0) (fun _ => 0)
      [⟨("Bb").toList, none⟩, ⟨("Rome").toList, none⟩]
      [(⟨("x"), .null, (.null, .null), .null, .null, .null, .null⟩ : Loc)] =
      [(⟨("x"), .null, (.null, .null), .null, .null, .null, .null⟩ : Loc)] := by
  exact claim8_amended.1 7
    (fun s => if s = ("Bb") then .error ("boom") else .ok (1, 2))
    (fun _ => .ok ("kd")) (fun _ => .ok ("img")) (fun _ => 0) (fun _ => 0)
    ⟨("Bb").toList, none⟩ [⟨("Rome").toList, none⟩]
    [(⟨("x"), .null, (.null, .null), .null, .null, .null, .null⟩ : Loc)]
    ("boom") (by decide) (by with_unfolding_all rfl)

/-! ### Claim C9 -/

/-- A successful text-candidate step names the location with the trimmed
captured name. -/
theorem textStep_ok_name {now k : Nat}
    {gc : String → Except String (ℚ × ℚ)}
    {gd gi : String → Except String String} {rA rB : Nat → ℚ}
    {m : TextMatch} {l : Loc}
    (h : textStep now k gc gd gi rA rB m = .ok l) :
    l.name = .str ((String.mk m.rawName).trim) := by
  simp only [textStep, bind, Except.bind] at h
  cases h1 : gc ((String.mk m.rawName).trim) with
  | error e => simp only [h1] at h; cases h
  | ok coords =>
  simp only [h1] at h
  cases h2 : gd ((String.mk m.rawName).trim) with
  | error e => simp only [h2] at h; cases h
  | ok kd =>
  simp only [h2] at h
  cases h3 : gi ((String.mk m.rawName).trim) with
  | error e => simp only [h3] at h; cases h
  | ok img =>
  simp only [h3] at h
  cases h
  rfl

/-- Every location the text loop adds comes from a candidate whose RAW
captured name, before trimming, has at least 2 characters. -/
theorem textLoop_mem {now : Nat} {gc : String → Except String (ℚ × ℚ)}
    {gd gi : String → Except String String} {rA rB : Nat → ℚ} :
    ∀ (ms : List TextMatch) (acc : List Loc) (l : Loc),
      l ∈ textLoop now gc gd gi rA rB ms acc →
      l ∈ acc ∨ ∃ m ∈ ms, 2 ≤ m.rawName.length ∧
        l.name = .str ((String.mk m.rawName).trim) := by
  intro ms
  induction ms with
  | nil =>
      intro acc l h
      simp only [textLoop] at h
      exact Or.inl h
  | cons m rest ih =>
      intro acc l h
      by_cases hshort : m.rawName.length < 2
      · simp only [textLoop, if_pos hshort] at h
        rcases ih acc l h with hin | ⟨m2, hm2, hlen2, hname2⟩
        · exact Or.inl hin
        · exact Or.inr ⟨m2, List.mem_cons_of_mem _ hm2, hlen2, hname2⟩
      · simp only [textLoop, if_neg hshort] at h
        cases hE : textStep now acc.length gc gd gi rA rB m with
        | error e =>
            rw [hE] at h
            exact Or.inl h
        | ok lnew =>
            rw [hE] at h
            rcases ih (acc ++ [lnew]) l h with hin | ⟨m2, hm2, hlen2, hname2⟩
            · rcases List.mem_append.mp hin with hin2 | hin2
              · exact Or.inl hin2
              · have hl : l = lnew := by simpa using hin2
                subst hl
                exact Or.inr ⟨m, List.mem_cons_self _ _,
                  Nat.le_of_not_lt hshort, textStep_ok_name hE⟩
            · exact Or.inr ⟨m2, List.mem_cons_of_mem _ hm2, hlen2, hname2⟩

/-- C9, amended: the length-2 check applies to the RAW captured name,
before trimming: every produced location stems from a candidate whose raw
capture has at least 2 characters, and carries that capture's trimmed
name — which itself can be shorter than 2 characters (see the
counterexample). -/
theorem claim9_amended (now : Nat) (gc : String → Except String (ℚ × ℚ))
    (gd gi : String → Except String String) (rA rB : Nat → ℚ)
    (text : String) (l : Loc)
    (h : l ∈ parseTextLocations now gc gd gi rA rB text) :
    ∃ m ∈ findTextMatches text, 2 ≤ m.rawName.length ∧
      l.name = .str ((String.mk m.rawName).trim) := by
  rcases textLoop_mem (findTextMatches text) [] l h with hin | hgood
  · cases hin
  · exact hgood

set_option maxRecDepth 8192 in
/-- C9, counterexample: on the input whose only candidate captures the raw
name of two characters but trims to the single character name, the
candidate is kept, not discarded: the result holds a location whose
trimmed name has fewer than 2 characters. -/
theorem claim9_counterexample :
    ((parseTextLocations 7 (fun _ => .ok (1, 2)) (fun _ => .ok ("kd"))
        (fun _ => .ok ("img")) (fun _ => 0) (fun _ => 0)
        ("1. A ")).map (fun l => l.name.asStr)) = [some ("A")] ∧
      ("A").length < 2 := by
  constructor
  · with_unfolding_all rfl
  · decide

set_option maxRecDepth 8192 in
/-- C9, witness: the amended theorem applied to the concrete one-candidate
input and its produced location. -/
theorem claim9_amended_witness :
    ∃ m ∈ findTextMatches ("1. A "), 2 ≤ m.rawName.length ∧
      ((⟨("loc-7-0"), .str ("A"), (.num 1, .num 2),
        .num ((4.5 : ℚ) + 0 * (0.5 : ℚ)),
        .num (jsFloor ((0 : ℚ) * 40000) + 10000), .str ("kd"),
        .str ("img")⟩ : Loc)).name = .str ((String.mk m.rawName).trim) := by
  exact claim9_amended 7 (fun _ => .ok (1, 2)) (fun _ => .ok ("kd"))
    (fun _ => .ok ("img")) (fun _ => 0) (fun _ => 0) ("1. A ") _
    (by with_unfolding_all exact List.mem_singleton_self _)

/-! ### Claim C10 -/

/-- C10: with no selection, the map-updater effect uses only the locations
that pass the validity filter (non-nullish position with non-NaN in-range
coordinates) — the computed view is the same as if only the valid locations
had been delivered — and when no location is valid the view is left
unchanged (and, the model being total, no error is raised). -/
theorem claim10_map_update_filters (locations : List JsVal) (st : MapView) :
    mapUpdaterOnLocations locations none st =
      mapUpdaterOnLocations (locations.filter muValidLoc) none st ∧
    (locations.filter muValidLoc = [] →
      mapUpdaterOnLocations locations none st = st) := by
  have hidem : (locations.filter muValidLoc).filter muValidLoc =
      locations.filter muValidLoc := by
    rw [List.filter_filter]
    simp
  by_cases h0 : locations.isEmpty
  · have h0e : locations = [] := by
      cases locations with
      | nil => rfl
      | cons a rest => simp [List.isEmpty] at h0
    subst h0e
    exact ⟨rfl, fun _ => rfl⟩
  · have hne : locations.isEmpty = false := by
      cases hg : locations.isEmpty with
      | false => rfl
      | true => exact absurd hg h0
    constructor
    · simp only [mapUpdaterOnLocations, hne, Option.isSome_none,
        Bool.or_false, Bool.false_or, if_false, hidem]
      cases hf : locations.filter muValidLoc with
      | nil => simp
      | cons a rest =>
          have hfe : ((a :: rest) : List JsVal).isEmpty = false := rfl
          simp [hfe]
    · intro hf
      simp [mapUpdaterOnLocations, hne, hf]

/-- C10, witness: the theorem applied to a single out-of-range location:
the view is unchanged. -/
theorem claim10_map_update_filters_witness :
    mapUpdaterOnLocations
      [JsVal.obj [(("position"),
        .obj [(("lat"), .num 200), (("lng"), .num 0)])]] none .start =
      .start := by
  exact (claim10_map_update_filters
    [JsVal.obj [(("position"),
      .obj [(("lat"), .num 200), (("lng"), .num 0)])]] .start).2
    (by with_unfolding_all rfl)

end TrippyAI
